import Mathlib

set_option maxHeartbeats 1000000

/-!
Verification of the stream-resolution pipeline of NuvioMobile
(`src/services/youtubeExtractor.ts` and `src/services/trailerService.ts`),
shallowly embedded in Lean.

Strings are modelled as lists of characters (`Str`).  JavaScript runtime
builtins that the source calls — `new URL`, `fetch`, and the file-system
write of the DASH manifest — are modelled as explicit oracle parameters:
an abstract URL parser, a list of per-client network outcomes, and a
cache-directory/write-success pair.  Everything else is translated
directly from the TypeScript source.
-/

abbrev Str := List Char

/-- Character used for the double quote, kept symbolic. -/
def quoteChar : Char := Char.ofNat 34

/-- Character used for the apostrophe, kept symbolic. -/
def aposChar : Char := Char.ofNat 39

/-- JavaScript truthiness of an optional string: `undefined` and the empty
string are falsy, every other string is truthy. -/
def strTruthy : Option Str → Bool
  | none => false
  | some s => !s.isEmpty

/-- JavaScript `String.prototype.split` on a single separator character:
`"a;b".split(';') = ["a","b"]`, `"".split(';') = [""]`, `"a;".split(';') = ["a",""]`. -/
def jsSplit (sep : Char) : Str → List Str
  | [] => [[]]
  | c :: rest =>
    if c = sep then [] :: jsSplit sep rest
    else
      match jsSplit sep rest with
      | [] => [[c]]
      | h :: t => (c :: h) :: t

/-- The whitespace characters stripped by JavaScript `String.prototype.trim`
(the ASCII ones; the exotic Unicode space characters do not occur in the
inputs of interest). -/
def wsChars : Str := [' ', '\t', '\n', '\r', '\x0b', '\x0c']

def isJsWS (c : Char) : Bool := decide (c ∈ wsChars)

/-- JavaScript `String.prototype.trim`. -/
def jsTrim (s : Str) : Str := ((s.dropWhile isJsWS).reverse.dropWhile isJsWS).reverse

/-- One character of the canonical video-id alphabet `[A-Za-z0-9_-]`. -/
def isCanonChar (c : Char) : Bool := c.isAlpha || c.isDigit || c = '_' || c = '-'

/-- The canonical 11-character video-id pattern `/^[A-Za-z0-9_-]{11}$/`. -/
def isCanonical (s : Str) : Bool := decide (s.length = 11) && s.all isCanonChar

-- ---------------------------------------------------------------------------
-- Mime-type parsing (youtubeExtractor.ts, `parseMimeType`)
-- ---------------------------------------------------------------------------

/-- Does `s` start with the case-insensitive literal `codecs=` of the regex
`/codecs=["']?/i`? -/
def matchesCodecsAt (s : Str) : Bool :=
  decide ((s.take 7).map Char.toLower = "codecs=".toList)

/-- Consume the match of `/codecs=["']?/i` at the front of `s`. -/
def dropCodecsAt (s : Str) : Str :=
  match s.drop 7 with
  | [] => []
  | q :: r => if q = quoteChar ∨ q = aposChar then r else q :: r

/-- `String.prototype.replace` with the non-global regex `/codecs=["']?/i`
and the empty replacement: remove the first match only. -/
def stripCodecsEq : Str → Str
  | [] => []
  | c :: rest =>
    if matchesCodecsAt (c :: rest) then dropCodecsAt (c :: rest)
    else c :: stripCodecsEq rest

/-- `String.prototype.replace` with `/["']$/` and the empty replacement:
drop one trailing quote character. -/
def stripTrailQuote (s : Str) : Str :=
  match s.getLast? with
  | some c => if c = quoteChar ∨ c = aposChar then s.dropLast else s
  | none => s

/-- `parseMimeType` from youtubeExtractor.ts: split at `';'`, trim the base
into the container, clean the codecs part. -/
def parseMimeType (s : Str) : Str × Str :=
  let parts := jsSplit ';' s
  let container := jsTrim (parts.headD [])
  match parts.get? 1 with
  | none => (container, [])
  | some cp => (container, jsTrim (stripTrailQuote (stripCodecsEq cp)))

-- ---------------------------------------------------------------------------
-- Data model (youtubeExtractor.ts interfaces)
-- ---------------------------------------------------------------------------

/-- `InnertubeFormat` from youtubeExtractor.ts (the fields the pipeline
reads; byte ranges are start/end string pairs as in the JSON). -/
structure InnertubeFormat where
  itag : Nat
  url : Option Str
  mimeType : Str
  bitrate : Nat
  width : Option Nat
  height : Option Nat
  quality : Str
  qualityLabel : Option Str
  audioQuality : Option Str
  audioSampleRate : Option Str
  initRange : Option (Str × Str)
  indexRange : Option (Str × Str)
deriving DecidableEq

structure VideoDetails where
  videoId : Str
  title : Str
  lengthSeconds : Str
deriving DecidableEq

structure PlayabilityStatus where
  status : Str
  reason : Option Str
deriving DecidableEq

structure InnertubeStreamingData where
  formats : Option (List InnertubeFormat)
  adaptiveFormats : Option (List InnertubeFormat)
deriving DecidableEq

structure InnertubePlayerResponse where
  streamingData : Option InnertubeStreamingData
  videoDetails : Option VideoDetails
  playabilityStatus : Option PlayabilityStatus
deriving DecidableEq

/-- `ExtractedStream` from youtubeExtractor.ts. -/
structure ExtractedStream where
  url : Str
  quality : Str
  mimeType : Str
  itag : Nat
  hasAudio : Bool
  hasVideo : Bool
  bitrate : Nat
deriving DecidableEq

/-- `YouTubeExtractionResult` from youtubeExtractor.ts. -/
structure YouTubeExtractionResult where
  streams : List ExtractedStream
  bestStream : Option ExtractedStream
  videoId : Str
  title : Option Str
  durationSeconds : Option Nat
deriving DecidableEq

def videoSlash : Str := "video/".toList
def audioSlash : Str := "audio/".toList
def videoMp4Pre : Str := "video/mp4".toList

/-- `isMuxedFormat`: the codec string contains a comma, or the descriptor
carries both an audio-quality marker and a quality label. -/
def isMuxedFormat (f : InnertubeFormat) : Bool :=
  (parseMimeType f.mimeType).2.contains ',' ||
    (strTruthy f.audioQuality && strTruthy f.qualityLabel)

/-- `isVideoMp4`: `mimeType.startsWith('video/mp4')`. -/
def isVideoMp4 (f : InnertubeFormat) : Bool := videoMp4Pre.isPrefixOf f.mimeType

/-- `formatQualityLabel`: `format.qualityLabel || format.quality || 'unknown'`. -/
def formatQualityLabel (f : InnertubeFormat) : Str :=
  if strTruthy f.qualityLabel then f.qualityLabel.getD []
  else if !f.quality.isEmpty then f.quality
  else "unknown".toList

-- ---------------------------------------------------------------------------
-- Itag reference tables and scoring
-- ---------------------------------------------------------------------------

def PREFERRED_MUXED_ITAGS : List Nat := [22, 18, 59, 78]

def ADAPTIVE_VIDEO_ITAGS_RANKED : List Nat := [137, 248, 136, 247, 135, 244, 134, 243]

def ADAPTIVE_AUDIO_ITAGS_RANKED : List Nat := [141, 140, 251, 250, 249]

/-- Index of the first occurrence of `a` in a list of itags
(`Array.prototype.indexOf`, with absence as `none`). -/
def idxOf? (a : Nat) : List Nat → Option Nat
  | [] => none
  | b :: l => if a = b then some 0 else (idxOf? a l).map (· + 1)

/-- `scoreFormat` from youtubeExtractor.ts.  JavaScript arithmetic is exact
rational arithmetic here (`bitrate / 1000` is float division), so the score
lives in `ℚ`. -/
def scoreFormat (f : InnertubeFormat) : ℚ :=
  let itagBonus : ℚ :=
    match idxOf? f.itag PREFERRED_MUXED_ITAGS with
    | some i => ((PREFERRED_MUXED_ITAGS.length - i : Nat) : ℚ) * 10000
    | none => 0
  let heightScore : ℚ := ((min (f.height.getD 0) 720 : Nat) : ℚ) * 10
  let bitrateScore : ℚ := ((min f.bitrate 3000000 : Nat) : ℚ) / 1000
  itagBonus + heightScore + bitrateScore

/-- Model of `[...pool].sort((a, b) => f(b) - f(a))[0]`: JavaScript's sort is
stable, so sorting descending by `f` and taking index 0 yields the first
element of maximal `f`; the fold keeps the current best and replaces it only
on a strictly larger key. -/
def sortFirstMax {α β : Type} [LinearOrder β] (f : α → β) : List α → Option α
  | [] => none
  | x :: xs => some (xs.foldl (fun b y => if f b < f y then y else b) x)

/-- The `for (const itag of RANKED) { const match = pool.find(...) }` loop of
the adaptive pickers: first ranked itag that has a candidate wins. -/
def findRanked (ranked : List Nat) (pool : List InnertubeFormat) : Option InnertubeFormat :=
  match ranked with
  | [] => none
  | t :: rest =>
    match pool.find? (fun f => decide (f.itag = t)) with
    | some m => some m
    | none => findRanked rest pool

-- ---------------------------------------------------------------------------
-- Adaptive selection (pickBestAdaptiveVideo / pickBestAdaptiveAudio)
-- ---------------------------------------------------------------------------

/-- The video-only candidate filter of `pickBestAdaptiveVideo`. -/
def videoOnlyOf (adaptiveFormats : List InnertubeFormat) : List InnertubeFormat :=
  adaptiveFormats.filter (fun f =>
    strTruthy f.url && strTruthy f.qualityLabel && !strTruthy f.audioQuality &&
      videoSlash.isPrefixOf f.mimeType)

/-- The audio-only candidate filter of `pickBestAdaptiveAudio`. -/
def audioOnlyOf (adaptiveFormats : List InnertubeFormat) : List InnertubeFormat :=
  adaptiveFormats.filter (fun f =>
    strTruthy f.url && strTruthy f.audioQuality && !strTruthy f.qualityLabel &&
      audioSlash.isPrefixOf f.mimeType)

def pickBestAdaptiveVideo (adaptiveFormats : List InnertubeFormat) : Option InnertubeFormat :=
  let videoOnly := videoOnlyOf adaptiveFormats
  if videoOnly.isEmpty then none
  else
    match findRanked ADAPTIVE_VIDEO_ITAGS_RANKED videoOnly with
    | some m => some m
    | none => sortFirstMax (fun f => f.bitrate) videoOnly

def pickBestAdaptiveAudio (adaptiveFormats : List InnertubeFormat) : Option InnertubeFormat :=
  let audioOnly := audioOnlyOf adaptiveFormats
  if audioOnly.isEmpty then none
  else
    match findRanked ADAPTIVE_AUDIO_ITAGS_RANKED audioOnly with
    | some m => some m
    | none => sortFirstMax (fun f => f.bitrate) audioOnly

-- ---------------------------------------------------------------------------
-- Muxed selection (pickBestMuxedStream)
-- ---------------------------------------------------------------------------

/-- The `ExtractedStream` record built from the winning muxed descriptor
(lines 441–449, identical shape at 605–613). -/
def muxedToStream (best : InnertubeFormat) : ExtractedStream :=
  { url := best.url.getD []
    quality := formatQualityLabel best
    mimeType := best.mimeType
    itag := best.itag
    hasAudio := strTruthy best.audioQuality || isMuxedFormat best
    hasVideo := strTruthy best.qualityLabel || videoSlash.isPrefixOf best.mimeType
    bitrate := best.bitrate }

/-- The last-resort video-only adaptive filter of `pickBestMuxedStream`. -/
def videoAdaptiveOf (adaptiveFormats : List InnertubeFormat) : List InnertubeFormat :=
  adaptiveFormats.filter (fun f =>
    strTruthy f.url && strTruthy f.qualityLabel && videoSlash.isPrefixOf f.mimeType)

def pickBestMuxedStream (muxedFormats adaptiveFormats : List InnertubeFormat) :
    Option ExtractedStream :=
  if 0 < muxedFormats.length then
    let mp4Formats := muxedFormats.filter isVideoMp4
    let pool := if 0 < mp4Formats.length then mp4Formats else muxedFormats
    match sortFirstMax scoreFormat pool with
    | some best => some (muxedToStream best)
    | none => none
  else if 0 < adaptiveFormats.length then
    let videoAdaptive := videoAdaptiveOf adaptiveFormats
    if 0 < videoAdaptive.length then
      match sortFirstMax (fun f => f.bitrate) videoAdaptive with
      | some best =>
        some { url := best.url.getD []
               quality := formatQualityLabel best
               mimeType := best.mimeType
               itag := best.itag
               hasAudio := false
               hasVideo := true
               bitrate := best.bitrate }
      | none => none
    else none
  else none

-- ---------------------------------------------------------------------------
-- Classification (parseMuxedFormats / parseAdaptiveFormats)
-- ---------------------------------------------------------------------------

/-- `parseMuxedFormats`: locator-bearing descriptors from the standard list,
plus locator-bearing descriptors from the adaptive list that independently
pass the muxed test. -/
def parseMuxedFormats (pr : InnertubePlayerResponse) : List InnertubeFormat :=
  match pr.streamingData with
  | none => []
  | some sd =>
    (sd.formats.getD []).filter (fun f => strTruthy f.url) ++
      (sd.adaptiveFormats.getD []).filter (fun f => strTruthy f.url && isMuxedFormat f)

/-- `parseAdaptiveFormats`: locator-bearing descriptors of the adaptive list. -/
def parseAdaptiveFormats (pr : InnertubePlayerResponse) : List InnertubeFormat :=
  match pr.streamingData with
  | none => []
  | some sd => (sd.adaptiveFormats.getD []).filter (fun f => strTruthy f.url)

-- ---------------------------------------------------------------------------
-- Client catalog and negotiation chain (YouTubeExtractor.extract, 503–557)
-- ---------------------------------------------------------------------------

/-- The name/user-agent pair of one entry of the client catalog (the request
context payloads are opaque to the chain logic). -/
structure ClientProfile where
  name : Str
  userAgent : Str
deriving DecidableEq

/-- The fixed ordered client catalog of `YouTubeExtractor.extract`. -/
def clients : List ClientProfile :=
  [ { name := "ANDROID".toList
      userAgent := "com.google.android.youtube/19.09.37 (Linux; U; Android 11) gzip".toList }
  , { name := "IOS".toList
      userAgent := "com.google.ios.youtube/19.09.3 (iPhone14,3; U; CPU iPhone OS 15_6 like Mac OS X)".toList }
  , { name := "TVHTML5_EMBEDDED".toList
      userAgent := "Mozilla/5.0 (SMART-TV; Linux; Tizen 6.0)".toList }
  , { name := "WEB_EMBEDDED".toList
      userAgent := "Mozilla/5.0 (Windows NT 10.0; Win64; x64) AppleWebKit/537.36 (KHTML, like Gecko) Chrome/127.0.0.0 Safari/537.36".toList } ]

/-- The per-client advance test on the playability status:
`status === 'UNPLAYABLE' || status === 'LOGIN_REQUIRED'`. -/
def badStatus (pr : InnertubePlayerResponse) : Bool :=
  match pr.playabilityStatus with
  | none => false
  | some ps =>
    decide (ps.status = "UNPLAYABLE".toList) || decide (ps.status = "LOGIN_REQUIRED".toList)

/-- One client attempt makes the chain advance: the request failed
(transport error, timeout or non-success HTTP status, all modelled as
`none`), the response is marked unplayable or login-required, or
classification yields zero usable descriptors. -/
def advancesB (r : Option InnertubePlayerResponse) : Bool :=
  match r with
  | none => true
  | some pr =>
    badStatus pr ||
      (decide (parseMuxedFormats pr = []) && decide (parseAdaptiveFormats pr = []))

/-- The negotiation loop of `YouTubeExtractor.extract` (lines 530–553),
driven by the list of per-client network outcomes (`fetchPlayerResponse`
returns `null` on transport error, timeout, or non-OK status). -/
def runChain :
    List (Option InnertubePlayerResponse) →
      Option (InnertubePlayerResponse × List InnertubeFormat × List InnertubeFormat)
  | [] => none
  | r :: rest =>
    match r with
    | none => runChain rest
    | some pr =>
      if badStatus pr then runChain rest
      else
        let muxed := parseMuxedFormats pr
        let adaptive := parseAdaptiveFormats pr
        if 0 < muxed.length ∨ 0 < adaptive.length then some (pr, muxed, adaptive)
        else runChain rest

-- ---------------------------------------------------------------------------
-- Manifest synthesis (writeDashManifestToFile, 276–353)
-- ---------------------------------------------------------------------------

/-- Decimal rendering of a JavaScript number holding a natural. -/
def natToStr (n : Nat) : Str := (toString n).toList

/-- Global single-character regex replace, e.g. `.replace(/&/g, '&amp;')`. -/
def replaceAllChar (c : Char) (rep : Str) : Str → Str
  | [] => []
  | d :: s => (if d = c then rep else [d]) ++ replaceAllChar c rep s

/-- `escapeXml` from `writeDashManifestToFile`: the chained global replaces
of `&`, `"`, `<` and `>` (in that order) by their character entities. -/
def escapeXml (s : Str) : Str :=
  replaceAllChar '>' "&gt;".toList
    (replaceAllChar '<' "&lt;".toList
      (replaceAllChar quoteChar "&quot;".toList
        (replaceAllChar '&' "&amp;".toList s)))

/-- A byte-range attribute value: `start-end`, with the sentinel `0-0` when
the descriptor carries no explicit range. -/
def rangeStr (r : Option (Str × Str)) : Str :=
  match r with
  | some p => p.1 ++ ("-".toList ++ p.2)
  | none => "0-0".toList

/-- The manifest text up to (and excluding) the embedded video locator
(`writeDashManifestToFile`, lines 323–328). -/
def mpdHead (videoFormat : InnertubeFormat) (durationSeconds : Option Nat) : Str :=
  let duration := durationSeconds.getD 300
  let mediaDurationISO := "PT".toList ++ natToStr duration ++ "S".toList
  let videoCodec := jsTrim (replaceAllChar quoteChar [] (parseMimeType videoFormat.mimeType).2)
  let videoMime := jsTrim ((jsSplit ';' videoFormat.mimeType).headD [])
  let width := natToStr (videoFormat.width.getD 1920)
  let height := natToStr (videoFormat.height.getD 1080)
  let videoBandwidth := natToStr videoFormat.bitrate
  "<?xml version=".toList ++ [quoteChar] ++ "1.0".toList ++ [quoteChar] ++
    " encoding=".toList ++ [quoteChar] ++ "UTF-8".toList ++ [quoteChar] ++ "?>\n".toList ++
  "<MPD xmlns=".toList ++ [quoteChar] ++ "urn:mpeg:dash:schema:mpd:2011".toList ++ [quoteChar] ++
    " type=".toList ++ [quoteChar] ++ "static".toList ++ [quoteChar] ++
    " mediaPresentationDuration=".toList ++ [quoteChar] ++ mediaDurationISO ++ [quoteChar] ++
    " minBufferTime=".toList ++ [quoteChar] ++ "PT2S".toList ++ [quoteChar] ++
    " profiles=".toList ++ [quoteChar] ++ "urn:mpeg:dash:profile:isoff-on-demand:2011".toList ++ [quoteChar] ++ ">\n".toList ++
  "  <Period duration=".toList ++ [quoteChar] ++ mediaDurationISO ++ [quoteChar] ++ ">\n".toList ++
  "    <AdaptationSet id=".toList ++ [quoteChar] ++ "1".toList ++ [quoteChar] ++
    " mimeType=".toList ++ [quoteChar] ++ videoMime ++ [quoteChar] ++
    " codecs=".toList ++ [quoteChar] ++ videoCodec ++ [quoteChar] ++
    " width=".toList ++ [quoteChar] ++ width ++ [quoteChar] ++
    " height=".toList ++ [quoteChar] ++ height ++ [quoteChar] ++
    " subsegmentAlignment=".toList ++ [quoteChar] ++ "true".toList ++ [quoteChar] ++
    " subsegmentStartsWithSAP=".toList ++ [quoteChar] ++ "1".toList ++ [quoteChar] ++ ">\n".toList ++
  "      <Representation id=".toList ++ [quoteChar] ++ "v1".toList ++ [quoteChar] ++
    " bandwidth=".toList ++ [quoteChar] ++ videoBandwidth ++ [quoteChar] ++
    " width=".toList ++ [quoteChar] ++ width ++ [quoteChar] ++
    " height=".toList ++ [quoteChar] ++ height ++ [quoteChar] ++ ">\n".toList ++
  "        <BaseURL>".toList

/-- The manifest text between the embedded video and audio locators
(lines 328–336). -/
def mpdMid (videoFormat audioFormat : InnertubeFormat) : Str :=
  let audioCodec := jsTrim (replaceAllChar quoteChar [] (parseMimeType audioFormat.mimeType).2)
  let audioMime := jsTrim ((jsSplit ';' audioFormat.mimeType).headD [])
  let audioBandwidth := natToStr audioFormat.bitrate
  let audioSampleRate := audioFormat.audioSampleRate.getD "44100".toList
  let vInit := rangeStr videoFormat.initRange
  let vIndex := rangeStr videoFormat.indexRange
  "</BaseURL>\n".toList ++
  "        <SegmentBase indexRange=".toList ++ [quoteChar] ++ vIndex ++ [quoteChar] ++ ">\n".toList ++
  "          <Initialization range=".toList ++ [quoteChar] ++ vInit ++ [quoteChar] ++ "/>\n".toList ++
  "        </SegmentBase>\n".toList ++
  "      </Representation>\n".toList ++
  "    </AdaptationSet>\n".toList ++
  "    <AdaptationSet id=".toList ++ [quoteChar] ++ "2".toList ++ [quoteChar] ++
    " mimeType=".toList ++ [quoteChar] ++ audioMime ++ [quoteChar] ++
    " codecs=".toList ++ [quoteChar] ++ audioCodec ++ [quoteChar] ++
    " lang=".toList ++ [quoteChar] ++ "en".toList ++ [quoteChar] ++
    " subsegmentAlignment=".toList ++ [quoteChar] ++ "true".toList ++ [quoteChar] ++
    " subsegmentStartsWithSAP=".toList ++ [quoteChar] ++ "1".toList ++ [quoteChar] ++ ">\n".toList ++
  "      <Representation id=".toList ++ [quoteChar] ++ "a1".toList ++ [quoteChar] ++
    " bandwidth=".toList ++ [quoteChar] ++ audioBandwidth ++ [quoteChar] ++
    " audioSamplingRate=".toList ++ [quoteChar] ++ audioSampleRate ++ [quoteChar] ++ ">\n".toList ++
  "        <BaseURL>".toList

/-- The manifest text after the embedded audio locator (lines 336–343). -/
def mpdTail (audioFormat : InnertubeFormat) : Str :=
  let aInit := rangeStr audioFormat.initRange
  let aIndex := rangeStr audioFormat.indexRange
  "</BaseURL>\n".toList ++
  "        <SegmentBase indexRange=".toList ++ [quoteChar] ++ aIndex ++ [quoteChar] ++ ">\n".toList ++
  "          <Initialization range=".toList ++ [quoteChar] ++ aInit ++ [quoteChar] ++ "/>\n".toList ++
  "        </SegmentBase>\n".toList ++
  "      </Representation>\n".toList ++
  "    </AdaptationSet>\n".toList ++
  "  </Period>\n".toList ++
  "</MPD>".toList

/-- The DASH MPD document text built by `writeDashManifestToFile`
(lines 287–343): the template split at the two `BaseURL` substitution
points, with the locators passed through `escapeXml`. -/
def buildMpd (videoFormat audioFormat : InnertubeFormat)
    (durationSeconds : Option Nat) : Str :=
  mpdHead videoFormat durationSeconds ++
    escapeXml (videoFormat.url.getD []) ++
    mpdMid videoFormat audioFormat ++
    escapeXml (audioFormat.url.getD []) ++
    mpdTail audioFormat

/-- `writeDashManifestToFile`: a missing cache directory or a failed write
(the `catch` branch, modelled by the `writeOk` oracle) yields `null`;
otherwise the deterministic file path derived from the identifier. -/
def writeDashManifestToFile (cacheDir : Option Str) (writeOk : Bool)
    (videoId : Str) : Option Str :=
  match cacheDir with
  | none => none
  | some dir =>
    if writeOk then some (dir ++ ("trailer_".toList ++ (videoId ++ ".mpd".toList)))
    else none

-- ---------------------------------------------------------------------------
-- Resolution orchestrator (YouTubeExtractor.extract, 560–622)
-- ---------------------------------------------------------------------------

inductive Platform where
  | android
  | ios
deriving DecidableEq

/-- The best-stream choice of `extract` after the chain has accepted a
response (lines 563–603): on Android with adaptive formats, try the DASH
pair and the manifest write; otherwise, or on any failure, fall back to the
muxed selection. -/
def chooseBestStream (platform : Option Platform)
    (muxedFormats adaptiveFormats : List InnertubeFormat)
    (videoId : Str) (cacheDir : Option Str) (writeOk : Bool) :
    Option ExtractedStream :=
  let dash : Option ExtractedStream :=
    if platform = some Platform.android ∧ 0 < adaptiveFormats.length then
      match pickBestAdaptiveVideo adaptiveFormats, pickBestAdaptiveAudio adaptiveFormats with
      | some bestVideo, some bestAudio =>
        match writeDashManifestToFile cacheDir writeOk videoId with
        | some mpdFilePath =>
          some { url := mpdFilePath
                 quality := formatQualityLabel bestVideo
                 mimeType := "application/dash+xml".toList
                 itag := bestVideo.itag
                 hasAudio := true
                 hasVideo := true
                 bitrate := bestVideo.bitrate + bestAudio.bitrate }
        | none => none
      | _, _ => none
    else none
  match dash with
  | some s => some s
  | none => pickBestMuxedStream muxedFormats adaptiveFormats

/-- JavaScript `parseInt` on the decimal strings the upstream sends for
`lengthSeconds` (leading digits; `none` when no digit leads). -/
def jsParseIntOpt (s : Str) : Option Nat :=
  let t := jsTrim s
  let ds := t.takeWhile Char.isDigit
  if ds.isEmpty then none
  else some (ds.foldl (fun n c => n * 10 + (c.toNat - 48)) 0)

/-- Abstract model of the WHATWG `new URL` builtin: the pieces the source
reads from a successfully parsed URL. -/
structure URLParts where
  hostname : Str
  pathname : Str
  searchParams : List (Str × Str)
deriving DecidableEq

/-- `searchParams.get(k)`: first value stored under `k`. -/
def spGet (l : List (Str × Str)) (k : Str) : Option Str :=
  (l.find? (fun p => decide (p.1 = k))).map (·.2)

/-- Match of `/\/(embed|shorts|v)\/([A-Za-z0-9_-]{11})/` at one position:
the alternation is tried left to right, then exactly 11 id characters are
required (no end anchor). -/
def segTryAt (s : Str) : Option Str :=
  match (if "/embed/".toList.isPrefixOf s then
           some (s.drop 7)
         else if "/shorts/".toList.isPrefixOf s then
           some (s.drop 8)
         else if "/v/".toList.isPrefixOf s then
           some (s.drop 3)
         else none) with
  | none => none
  | some r =>
    if decide ((r.take 11).length = 11) && (r.take 11).all isCanonChar then some (r.take 11)
    else none

/-- Scan `pathname` for the first match of the embed/shorts/v regex. -/
def scanPathForId : Str → Option Str
  | [] => none
  | c :: rest =>
    match segTryAt (c :: rest) with
    | some id => some id
    | none => scanPathForId rest

/-- Match of `/[?&]v=([A-Za-z0-9_-]{11})/` at one position. -/
def rawTryAt (s : Str) : Option Str :=
  match s with
  | [] => none
  | c :: rest =>
    if c = '?' ∨ c = '&' then
      if "v=".toList.isPrefixOf rest then
        let r := rest.drop 2
        if decide ((r.take 11).length = 11) && (r.take 11).all isCanonChar then some (r.take 11)
        else none
      else none
    else none

/-- Scan the raw input for the first match of the `v=` fallback regex. -/
def scanRawForV : Str → Option Str
  | [] => none
  | c :: rest =>
    match rawTryAt (c :: rest) with
    | some id => some id
    | none => scanRawForV rest

/-- The `youtu.be` short-link branch of `extractVideoId` (lines 180–183):
first path segment, validated against the canonical pattern. -/
def tryShort (url : URLParts) : Option Str :=
  if url.hostname = "youtu.be".toList then
    let id := (jsSplit '/' (url.pathname.drop 1)).headD []
    if !id.isEmpty && isCanonical id then some id else none
  else none

/-- The `v` query-parameter branch of `extractVideoId` (lines 186–187). -/
def tryVParam (url : URLParts) : Option Str :=
  match spGet url.searchParams "v".toList with
  | some v => if !v.isEmpty && isCanonical v then some v else none
  | none => none

/-- The `try` block of `extractVideoId` on a successfully parsed URL:
short-link branch, then `v` parameter, then the embed/shorts/v path regex
(the short-link branch falls through on an invalid first segment). -/
def fromURL (url : URLParts) : Option Str :=
  match tryShort url with
  | some id => some id
  | none =>
    match tryVParam url with
    | some v => some v
    | none => scanPathForId url.pathname

/-- `extractVideoId` from youtubeExtractor.ts, with the WHATWG URL builtin
abstracted into the `parseURL` oracle (its `catch` branch is the `none`
case). -/
def extractVideoId (parseURL : Str → Option URLParts) (input : Str) : Option Str :=
  if input.isEmpty then none
  else if isCanonical (jsTrim input) then some (jsTrim input)
  else
    match parseURL input with
    | some url => fromURL url
    | none => scanRawForV input

/-- `YouTubeExtractor.extract`, with the network (one outcome per catalog
client) and the file system as oracles. -/
def extract (parseURL : Str → Option URLParts) (input : Str)
    (platform : Option Platform)
    (responses : List (Option InnertubePlayerResponse))
    (cacheDir : Option Str) (writeOk : Bool) :
    Option YouTubeExtractionResult :=
  match extractVideoId parseURL input with
  | none => none
  | some videoId =>
    match runChain responses with
    | none => none
    | some (pr, muxedFormats, adaptiveFormats) =>
      let durationSeconds :=
        match pr.videoDetails with
        | some d => if !d.lengthSeconds.isEmpty then jsParseIntOpt d.lengthSeconds else none
        | none => none
      let bestStream := chooseBestStream platform muxedFormats adaptiveFormats videoId cacheDir writeOk
      some { streams := muxedFormats.map muxedToStream
             bestStream := bestStream
             videoId := videoId
             title := pr.videoDetails.map (·.title)
             durationSeconds := durationSeconds }

/-- `YouTubeExtractor.getBestStreamUrl`: `result?.bestStream?.url ?? null`. -/
def getBestStreamUrl (parseURL : Str → Option URLParts) (input : Str)
    (platform : Option Platform)
    (responses : List (Option InnertubePlayerResponse))
    (cacheDir : Option Str) (writeOk : Bool) : Option Str :=
  match extract parseURL input platform responses cacheDir writeOk with
  | none => none
  | some r =>
    match r.bestStream with
    | none => none
    | some s => some s.url

-- ---------------------------------------------------------------------------
-- Resolved-stream cache (trailerService.ts, 247–269)
-- ---------------------------------------------------------------------------

structure CacheEntry where
  url : Str
  expiresAt : Nat
deriving DecidableEq

/-- `CACHE_TTL_MS = 5 * 60 * 60 * 1000`. -/
def CACHE_TTL_MS : Nat := 5 * 60 * 60 * 1000

/-- The `Map<string, CacheEntry>` with its insertion order made explicit. -/
abbrev Cache := List (Str × CacheEntry)

/-- `Map.prototype.get`. -/
def mapGet (m : Cache) (k : Str) : Option CacheEntry :=
  (m.find? (fun p => decide (p.1 = k))).map (·.2)

/-- `Map.prototype.delete` (keys are unique in a `Map`, so removing every
binding of `k` removes the single one). -/
def mapDelete (m : Cache) (k : Str) : Cache :=
  m.filter (fun p => !decide (p.1 = k))

/-- `Map.prototype.set`: update in place when the key exists (insertion
order is kept), append otherwise. -/
def mapSet (m : Cache) (k : Str) (v : CacheEntry) : Cache :=
  if m.any (fun p => decide (p.1 = k)) then
    m.map (fun p => if p.1 = k then (k, v) else p)
  else m ++ [(k, v)]

def mpdSuffix : Str := ".mpd".toList

/-- `TrailerService.getCached`, returning the looked-up value and the map
after the read (the read deletes expired and manifest entries). -/
def getCached (c : Cache) (k : Str) (now : Nat) : Option Str × Cache :=
  match mapGet c k with
  | none => (none, c)
  | some entry =>
    if entry.expiresAt < now then (none, mapDelete c k)
    else if mpdSuffix.isSuffixOf entry.url then (none, mapDelete c k)
    else (some entry.url, c)

/-- `TrailerService.setCache`: store with expiry `now + TTL`, then evict the
single oldest-inserted entry when the size exceeds 100. -/
def setCache (c : Cache) (k url : Str) (now : Nat) : Cache :=
  let c1 := mapSet c k ⟨url, now + CACHE_TTL_MS⟩
  if 100 < c1.length then
    match c1.head? with
    | some oldest => mapDelete c1 oldest.1
    | none => c1
  else c1

/-- Folding `setCache` over a list of keys (the eviction scenario). -/
def insertAll (url : Str) (now : Nat) (c : Cache) (ks : List Str) : Cache :=
  ks.foldl (fun m k => setCache m k url now) c

-- ---------------------------------------------------------------------------
-- Helper lemmas: first-maximum fold (stable descending sort, index 0)
-- ---------------------------------------------------------------------------

theorem foldlMax_spec {α β : Type} [LinearOrder β] (f : α → β) (xs : List α) (a : α) :
    (xs.foldl (fun b y => if f b < f y then y else b) a) ∈ a :: xs ∧
    (∀ y ∈ a :: xs, f y ≤ f (xs.foldl (fun b y => if f b < f y then y else b) a)) ∧
    ∃ l₁ l₂, a :: xs = l₁ ++ (xs.foldl (fun b y => if f b < f y then y else b) a) :: l₂ ∧
      ∀ y ∈ l₁, f y < f (xs.foldl (fun b y => if f b < f y then y else b) a) := by
  induction xs generalizing a with
  | nil =>
    refine ⟨List.mem_singleton.mpr rfl, ?_, [], [], rfl, by simp⟩
    intro y hy
    simp only [List.foldl_nil]
    rcases List.mem_singleton.mp hy with rfl
    exact le_refl _
  | cons y ys ih =>
    by_cases h : f a < f y
    · simp only [List.foldl_cons, if_pos h]
      obtain ⟨hmem, hub, l₁, l₂, hdec, hstrict⟩ := ih y
      refine ⟨List.mem_cons_of_mem _ hmem, ?_, a :: l₁, l₂, by rw [List.cons_append, hdec], ?_⟩
      · intro z hz
        rcases List.mem_cons.mp hz with rfl | hz'
        · exact le_of_lt (lt_of_lt_of_le h (hub y (List.mem_cons_self _ _)))
        · exact hub z hz'
      · intro z hz
        rcases List.mem_cons.mp hz with rfl | hz'
        · exact lt_of_lt_of_le h (hub y (List.mem_cons_self _ _))
        · exact hstrict z hz'
    · simp only [List.foldl_cons, if_neg h]
      obtain ⟨hmem, hub, l₁, l₂, hdec, hstrict⟩ := ih a
      have hya : f y ≤ f a := not_lt.mp h
      refine ⟨?_, ?_, ?_⟩
      · rcases List.mem_cons.mp hmem with hr | hr
        · rw [hr]; exact List.mem_cons_self _ _
        · exact List.mem_cons_of_mem _ (List.mem_cons_of_mem _ hr)
      · intro z hz
        rcases List.mem_cons.mp hz with rfl | hz'
        · exact hub z (List.mem_cons_self _ _)
        · rcases List.mem_cons.mp hz' with rfl | hz''
          · exact le_trans hya (hub a (List.mem_cons_self _ _))
          · exact hub z (List.mem_cons_of_mem _ hz'')
      · cases l₁ with
        | nil =>
          have hr : a = ys.foldl (fun b y => if f b < f y then y else b) a := by
            have := hdec
            simp only [List.nil_append] at this
            exact (List.cons.injEq _ _ _ _).mp this |>.1
          refine ⟨[], y :: ys, ?_, by simp⟩
          simp only [List.nil_append]
          rw [← hr]
        | cons a' l₁' =>
          have h1 : a = a' ∧ ys = l₁' ++ (ys.foldl (fun b y => if f b < f y then y else b) a) :: l₂ := by
            have := hdec
            simp only [List.cons_append] at this
            exact ⟨((List.cons.injEq _ _ _ _).mp this).1, ((List.cons.injEq _ _ _ _).mp this).2⟩
          have hastrict : f a < f (ys.foldl (fun b y => if f b < f y then y else b) a) := by
            have : a ∈ a' :: l₁' := by rw [← h1.1]; exact List.mem_cons_self _ _
            exact hstrict a this
          refine ⟨a :: y :: l₁', l₂, ?_, ?_⟩
          · simp only [List.cons_append]
            rw [← h1.2]
          · intro z hz
            rcases List.mem_cons.mp hz with rfl | hz'
            · exact hastrict
            · rcases List.mem_cons.mp hz' with rfl | hz''
              · exact lt_of_le_of_lt hya hastrict
              · exact hstrict z (by rw [← h1.1]; exact List.mem_cons_of_mem _ hz'')

theorem sortFirstMax_spec {α β : Type} [LinearOrder β] (f : α → β) (l : List α) (x : α)
    (h : sortFirstMax f l = some x) :
    x ∈ l ∧ (∀ y ∈ l, f y ≤ f x) ∧ ∃ l₁ l₂, l = l₁ ++ x :: l₂ ∧ ∀ y ∈ l₁, f y < f x := by
  cases l with
  | nil => simp [sortFirstMax] at h
  | cons a xs =>
    have hx : xs.foldl (fun b y => if f b < f y then y else b) a = x := by
      simpa [sortFirstMax] using h
    rw [← hx]
    exact foldlMax_spec f xs a

theorem sortFirstMax_isSome {α β : Type} [LinearOrder β] (f : α → β) (l : List α)
    (h : l ≠ []) : ∃ x, sortFirstMax f l = some x := by
  cases l with
  | nil => exact absurd rfl h
  | cons a xs => exact ⟨_, rfl⟩

-- ---------------------------------------------------------------------------
-- Helper lemmas: ranked itag search
-- ---------------------------------------------------------------------------

theorem idxOf?_eq_none (a : Nat) (l : List Nat) : idxOf? a l = none ↔ a ∉ l := by
  induction l with
  | nil => simp [idxOf?]
  | cons b l ih =>
    by_cases h : a = b
    · simp [idxOf?, h]
    · simp [idxOf?, h, ih]

theorem findRanked_mem (ranked : List Nat) (pool : List InnertubeFormat)
    (c : InnertubeFormat) (h : findRanked ranked pool = some c) : c ∈ pool := by
  induction ranked with
  | nil => simp [findRanked] at h
  | cons t rest ih =>
    rw [findRanked] at h
    cases hf : pool.find? (fun f => decide (f.itag = t)) with
    | some m =>
      rw [hf] at h
      cases h
      exact List.mem_of_find?_eq_some hf
    | none =>
      rw [hf] at h
      exact ih h

theorem findRanked_min (ranked : List Nat) (pool : List InnertubeFormat)
    (c : InnertubeFormat) (h : findRanked ranked pool = some c) :
    ∃ i, idxOf? c.itag ranked = some i ∧
      ∀ d ∈ pool, ∀ j, idxOf? d.itag ranked = some j → i ≤ j := by
  induction ranked with
  | nil => simp [findRanked] at h
  | cons t rest ih =>
    rw [findRanked] at h
    cases hf : pool.find? (fun f => decide (f.itag = t)) with
    | some m =>
      rw [hf] at h
      cases h
      have hit : c.itag = t := by
        have := List.find?_some hf
        exact of_decide_eq_true this
      exact ⟨0, by simp [idxOf?, hit], fun d _ j _ => Nat.zero_le j⟩
    | none =>
      rw [hf] at h
      obtain ⟨i, hi, hmin⟩ := ih h
      have hnone : ∀ d ∈ pool, ¬(d.itag = t) := by
        intro d hd
        have := List.find?_eq_none.mp hf d hd
        simpa using this
      have hc : c ∈ pool := findRanked_mem rest pool c h
      refine ⟨i + 1, ?_, ?_⟩
      · simp [idxOf?, hnone c hc, hi]
      · intro d hd j hj
        rw [idxOf?] at hj
        simp only [hnone d hd, if_false] at hj
        rcases Option.map_eq_some'.mp hj with ⟨j', hj', rfl⟩
        exact Nat.succ_le_succ (hmin d hd j' hj')

theorem findRanked_none (ranked : List Nat) (pool : List InnertubeFormat) :
    findRanked ranked pool = none ↔ ∀ d ∈ pool, d.itag ∉ ranked := by
  induction ranked with
  | nil => simp [findRanked]
  | cons t rest ih =>
    rw [findRanked]
    cases hf : pool.find? (fun f => decide (f.itag = t)) with
    | some m =>
      simp only [iff_false_intro]
      constructor
      · intro h; cases h
      · intro h
        have hm : m ∈ pool := List.mem_of_find?_eq_some hf
        have hmt : m.itag = t := by
          have := List.find?_some hf
          exact of_decide_eq_true this
        exact absurd (by rw [hmt]; exact List.mem_cons_self _ _) (h m hm)
    | none =>
      have hnone : ∀ d ∈ pool, ¬(d.itag = t) := by
        intro d hd
        have := List.find?_eq_none.mp hf d hd
        simpa using this
      rw [ih]
      constructor
      · intro h d hd
        intro hmem
        rcases List.mem_cons.mp hmem with heq | hmem'
        · exact hnone d hd heq
        · exact h d hd hmem'
      · intro h d hd hmem
        exact h d hd (List.mem_cons_of_mem _ hmem)

/-- Shared characterization of the two adaptive pickers after the pool
filter: first ranked itag with a candidate, else the bitrate maximum. -/
theorem pickRanked_spec (ranked : List Nat) (pool : List InnertubeFormat)
    (hne : pool ≠ []) :
    ∃ c, (match findRanked ranked pool with
          | some m => some m
          | none => sortFirstMax (fun f : InnertubeFormat => f.bitrate) pool) = some c ∧
      c ∈ pool ∧
      ((∃ i, idxOf? c.itag ranked = some i ∧
          ∀ d ∈ pool, ∀ j, idxOf? d.itag ranked = some j → i ≤ j)
       ∨ ((∀ d ∈ pool, idxOf? d.itag ranked = none) ∧ ∀ d ∈ pool, d.bitrate ≤ c.bitrate)) := by
  cases hfr : findRanked ranked pool with
  | some m =>
    exact ⟨m, rfl, findRanked_mem _ _ _ hfr, Or.inl (findRanked_min _ _ _ hfr)⟩
  | none =>
    obtain ⟨x, hx⟩ := sortFirstMax_isSome (fun f : InnertubeFormat => f.bitrate) pool hne
    obtain ⟨hmem, hub, _⟩ := sortFirstMax_spec _ _ _ hx
    have hall := (findRanked_none ranked pool).mp hfr
    exact ⟨x, by rw [hx], hmem,
      Or.inr ⟨fun d hd => (idxOf?_eq_none _ _).mpr (hall d hd), hub⟩⟩

/-- A video-only adaptive candidate outside every preference list
(itag 999), used by the fallback scenario. -/
def fmt999 : InnertubeFormat :=
  { itag := 999
    url := some "http://v999".toList
    mimeType := "video/mp4".toList
    bitrate := 1000000
    width := some 1280
    height := some 720
    quality := "hd720".toList
    qualityLabel := some "720p".toList
    audioQuality := none
    audioSampleRate := none
    initRange := none
    indexRange := none }

/-- Claim C2: for every non-empty pool of adaptive video-only (respectively
audio-only) candidates, selection returns the candidate whose itag appears
earliest in the fixed preference list, scanning the list in rank order; if
no candidate itag is listed, the candidate with the maximum bitrate is
returned (in particular a pool holding only itag 999 at bitrate 1000000
selects itag 999); the result is some candidate (non-null and
deterministic) whenever the pool is non-empty. -/
theorem claim_C2 :
    (∀ fmts : List InnertubeFormat, videoOnlyOf fmts ≠ [] →
      ∃ c, pickBestAdaptiveVideo fmts = some c ∧ c ∈ videoOnlyOf fmts ∧
        ((∃ i, idxOf? c.itag ADAPTIVE_VIDEO_ITAGS_RANKED = some i ∧
            ∀ d ∈ videoOnlyOf fmts, ∀ j,
              idxOf? d.itag ADAPTIVE_VIDEO_ITAGS_RANKED = some j → i ≤ j)
         ∨ ((∀ d ∈ videoOnlyOf fmts, idxOf? d.itag ADAPTIVE_VIDEO_ITAGS_RANKED = none) ∧
            ∀ d ∈ videoOnlyOf fmts, d.bitrate ≤ c.bitrate))) ∧
    (∀ fmts : List InnertubeFormat, audioOnlyOf fmts ≠ [] →
      ∃ c, pickBestAdaptiveAudio fmts = some c ∧ c ∈ audioOnlyOf fmts ∧
        ((∃ i, idxOf? c.itag ADAPTIVE_AUDIO_ITAGS_RANKED = some i ∧
            ∀ d ∈ audioOnlyOf fmts, ∀ j,
              idxOf? d.itag ADAPTIVE_AUDIO_ITAGS_RANKED = some j → i ≤ j)
         ∨ ((∀ d ∈ audioOnlyOf fmts, idxOf? d.itag ADAPTIVE_AUDIO_ITAGS_RANKED = none) ∧
            ∀ d ∈ audioOnlyOf fmts, d.bitrate ≤ c.bitrate))) ∧
    pickBestAdaptiveVideo [fmt999] = some fmt999 := by
  refine ⟨?_, ?_, by decide⟩
  · intro fmts hne
    have hfalse : (videoOnlyOf fmts).isEmpty = false := by
      cases hpool : videoOnlyOf fmts with
      | nil => exact absurd hpool hne
      | cons a as => rfl
    simp only [pickBestAdaptiveVideo, hfalse, Bool.false_eq_true, if_false]
    exact pickRanked_spec ADAPTIVE_VIDEO_ITAGS_RANKED (videoOnlyOf fmts) hne
  · intro fmts hne
    have hfalse : (audioOnlyOf fmts).isEmpty = false := by
      cases hpool : audioOnlyOf fmts with
      | nil => exact absurd hpool hne
      | cons a as => rfl
    simp only [pickBestAdaptiveAudio, hfalse, Bool.false_eq_true, if_false]
    exact pickRanked_spec ADAPTIVE_AUDIO_ITAGS_RANKED (audioOnlyOf fmts) hne

/-- Claim C2 witness: the adaptive-video scenario with candidates of itags
137 and 136 and the fallback pool holding only itag 999. -/
theorem claim_C2_witness :
    ∃ c, pickBestAdaptiveVideo [fmt999] = some c ∧ c ∈ videoOnlyOf [fmt999] ∧
      ((∃ i, idxOf? c.itag ADAPTIVE_VIDEO_ITAGS_RANKED = some i ∧
          ∀ d ∈ videoOnlyOf [fmt999], ∀ j,
            idxOf? d.itag ADAPTIVE_VIDEO_ITAGS_RANKED = some j → i ≤ j)
       ∨ ((∀ d ∈ videoOnlyOf [fmt999], idxOf? d.itag ADAPTIVE_VIDEO_ITAGS_RANKED = none) ∧
          ∀ d ∈ videoOnlyOf [fmt999], d.bitrate ≤ c.bitrate)) :=
  claim_C2.1 [fmt999] (by decide)

/-- Unfolding of the muxed score when the itag sits at rank `i` of the
preference list. -/
theorem scoreFormat_eq (f : InnertubeFormat) (i : Nat)
    (hi : idxOf? f.itag PREFERRED_MUXED_ITAGS = some i) :
    scoreFormat f = ((4 - i : Nat) : ℚ) * 10000 +
      ((min (f.height.getD 0) 720 : Nat) : ℚ) * 10 +
      ((min f.bitrate 3000000 : Nat) : ℚ) / 1000 := by
  simp only [scoreFormat, hi, show PREFERRED_MUXED_ITAGS.length = 4 from rfl]

/-- Claim C3: the muxed score is the preference bonus plus capped height and
bitrate terms; at equal bitrate and height the preference ranks dominate
(itag 22 strictly outscores 18, which strictly outscores 59; an unlisted
itag gets no bonus), and muxed selection returns the highest-scoring member
of the mime-preferred pool with ties broken by original list order (first
maximum wins). -/
theorem claim_C3 :
    (∀ f g : InnertubeFormat, f.itag = 22 → g.itag = 18 →
      f.height = g.height → f.bitrate = g.bitrate → scoreFormat g < scoreFormat f) ∧
    (∀ f g : InnertubeFormat, f.itag = 18 → g.itag = 59 →
      f.height = g.height → f.bitrate = g.bitrate → scoreFormat g < scoreFormat f) ∧
    (∀ f : InnertubeFormat, f.itag ∉ PREFERRED_MUXED_ITAGS →
      scoreFormat f = ((min (f.height.getD 0) 720 : Nat) : ℚ) * 10 +
        ((min f.bitrate 3000000 : Nat) : ℚ) / 1000) ∧
    (∀ muxedFormats adaptiveFormats : List InnertubeFormat, muxedFormats ≠ [] →
      ∃ best l₁ l₂,
        pickBestMuxedStream muxedFormats adaptiveFormats = some (muxedToStream best) ∧
        (if 0 < (muxedFormats.filter isVideoMp4).length then muxedFormats.filter isVideoMp4
         else muxedFormats) = l₁ ++ best :: l₂ ∧
        (∀ y ∈ l₁, scoreFormat y < scoreFormat best) ∧
        (∀ y ∈ (if 0 < (muxedFormats.filter isVideoMp4).length then muxedFormats.filter isVideoMp4
                else muxedFormats), scoreFormat y ≤ scoreFormat best)) := by
  refine ⟨?_, ?_, ?_, ?_⟩
  · intro f g h1 h2 hh hb
    have e1 : idxOf? f.itag PREFERRED_MUXED_ITAGS = some 0 := by rw [h1]; rfl
    have e2 : idxOf? g.itag PREFERRED_MUXED_ITAGS = some 1 := by rw [h2]; rfl
    rw [scoreFormat_eq f 0 e1, scoreFormat_eq g 1 e2, hh, hb]
    have c1 : ((4 - 1 : Nat) : ℚ) = 3 := by norm_num
    have c2 : ((4 - 0 : Nat) : ℚ) = 4 := by norm_num
    rw [c1, c2]
    linarith
  · intro f g h1 h2 hh hb
    have e1 : idxOf? f.itag PREFERRED_MUXED_ITAGS = some 1 := by rw [h1]; rfl
    have e2 : idxOf? g.itag PREFERRED_MUXED_ITAGS = some 2 := by rw [h2]; rfl
    rw [scoreFormat_eq f 1 e1, scoreFormat_eq g 2 e2, hh, hb]
    have c1 : ((4 - 2 : Nat) : ℚ) = 2 := by norm_num
    have c2 : ((4 - 1 : Nat) : ℚ) = 3 := by norm_num
    rw [c1, c2]
    linarith
  · intro f h
    have e : idxOf? f.itag PREFERRED_MUXED_ITAGS = none := (idxOf?_eq_none _ _).mpr h
    simp only [scoreFormat, e, zero_add]
  · intro muxedFormats adaptiveFormats hne
    have hlen : 0 < muxedFormats.length := List.length_pos.mpr hne
    simp only [pickBestMuxedStream, if_pos hlen]
    have hpoolne : (if 0 < (muxedFormats.filter isVideoMp4).length
        then muxedFormats.filter isVideoMp4 else muxedFormats) ≠ [] := by
      by_cases hc : 0 < (muxedFormats.filter isVideoMp4).length
      · rw [if_pos hc]; exact List.ne_nil_of_length_pos hc
      · rw [if_neg hc]; exact hne
    obtain ⟨x, hx⟩ := sortFirstMax_isSome scoreFormat _ hpoolne
    obtain ⟨hmem, hub, l₁, l₂, hdec, hstrict⟩ := sortFirstMax_spec _ _ _ hx
    exact ⟨x, l₁, l₂, by rw [hx], hdec, hstrict, hub⟩

/-- Claim C3 witness: the spec scenario with itags 18, 22, 59 at equal
bitrate and height, and a concrete muxed selection. -/
theorem claim_C3_witness :
    scoreFormat { fmt999 with itag := 18 } < scoreFormat { fmt999 with itag := 22 } ∧
    scoreFormat { fmt999 with itag := 59 } < scoreFormat { fmt999 with itag := 18 } ∧
    (∃ best l₁ l₂,
      pickBestMuxedStream [{ fmt999 with itag := 18 }] [] = some (muxedToStream best) ∧
      (if 0 < ([{ fmt999 with itag := 18 }].filter isVideoMp4).length
       then [{ fmt999 with itag := 18 }].filter isVideoMp4
       else [{ fmt999 with itag := 18 }]) = l₁ ++ best :: l₂ ∧
      (∀ y ∈ l₁, scoreFormat y < scoreFormat best) ∧
      (∀ y ∈ (if 0 < ([{ fmt999 with itag := 18 }].filter isVideoMp4).length
              then [{ fmt999 with itag := 18 }].filter isVideoMp4
              else [{ fmt999 with itag := 18 }]), scoreFormat y ≤ scoreFormat best)) :=
  ⟨claim_C3.1 _ _ rfl rfl rfl rfl, claim_C3.2.1 _ _ rfl rfl rfl rfl,
    claim_C3.2.2.2 [{ fmt999 with itag := 18 }] [] (by decide)⟩

/-- The dominance counterexample pair of claim C10: itag 18 at full height
and bitrate caps versus itag 22 with zero height and bitrate. -/
def fmt18full : InnertubeFormat := { fmt999 with itag := 18, bitrate := 3000000 }

def fmt22zero : InnertubeFormat :=
  { fmt999 with itag := 22, bitrate := 0, height := some 0 }

/-- Claim C10: the height and bitrate terms of the muxed score can outweigh
one preference-rank step: a rank step is worth exactly 10000, the capped
height and bitrate terms are together bounded by 10200, and concretely
itag 18 at height 720 / bitrate 3000000 strictly outscores itag 22 at
height 0 / bitrate 0. -/
theorem claim_C10 :
    scoreFormat fmt22zero < scoreFormat fmt18full ∧
    (∀ f g : InnertubeFormat, f.itag = 22 → g.itag = 18 →
      f.height = g.height → f.bitrate = g.bitrate →
      scoreFormat f - scoreFormat g = 10000) ∧
    (∀ f : InnertubeFormat, f.itag ∉ PREFERRED_MUXED_ITAGS → scoreFormat f ≤ 10200) := by
  refine ⟨?_, ?_, ?_⟩
  · have h18 : scoreFormat fmt18full = 40200 := by
      rw [scoreFormat_eq fmt18full 1 rfl]
      norm_num [fmt18full, fmt999]
    have h22 : scoreFormat fmt22zero = 40000 := by
      rw [scoreFormat_eq fmt22zero 0 rfl]
      norm_num [fmt22zero, fmt999]
    rw [h18, h22]
    norm_num
  · intro f g h1 h2 hh hb
    have e1 : idxOf? f.itag PREFERRED_MUXED_ITAGS = some 0 := by rw [h1]; rfl
    have e2 : idxOf? g.itag PREFERRED_MUXED_ITAGS = some 1 := by rw [h2]; rfl
    rw [scoreFormat_eq f 0 e1, scoreFormat_eq g 1 e2, hh, hb]
    have c1 : ((4 - 1 : Nat) : ℚ) = 3 := by norm_num
    have c2 : ((4 - 0 : Nat) : ℚ) = 4 := by norm_num
    rw [c1, c2]
    linarith
  · intro f h
    have e : idxOf? f.itag PREFERRED_MUXED_ITAGS = none := (idxOf?_eq_none _ _).mpr h
    simp only [scoreFormat, e, zero_add]
    have h1 : ((min (f.height.getD 0) 720 : Nat) : ℚ) ≤ 720 := by
      exact_mod_cast Nat.cast_le.mpr (min_le_right _ _)
    have h2 : ((min f.bitrate 3000000 : Nat) : ℚ) ≤ 3000000 := by
      exact_mod_cast Nat.cast_le.mpr (min_le_right _ _)
    linarith

/-- Claim C10 witness: the rank-step and cap facts at the concrete
counterexample pair. -/
theorem claim_C10_witness :
    scoreFormat fmt22zero - scoreFormat { fmt22zero with itag := 18 } = 10000 ∧
    scoreFormat fmt999 ≤ 10200 :=
  ⟨claim_C10.2.1 fmt22zero { fmt22zero with itag := 18 } rfl rfl rfl rfl,
    claim_C10.2.2 fmt999 (by decide)⟩

-- ---------------------------------------------------------------------------
-- Cache lemmas
-- ---------------------------------------------------------------------------

theorem mapGet_delete (c : Cache) (k : Str) : mapGet (mapDelete c k) k = none := by
  have hf : (mapDelete c k).find? (fun p => decide (p.1 = k)) = none := by
    apply List.find?_eq_none.mpr
    intro p hp
    have := (List.mem_filter.mp hp).2
    simpa using this
  unfold mapGet
  rw [hf]
  rfl

theorem mapGet_not_mem (m : Cache) (k : Str) (h : k ∉ m.map Prod.fst) :
    mapGet m k = none := by
  have hf : m.find? (fun p => decide (p.1 = k)) = none := by
    apply List.find?_eq_none.mpr
    intro p hp
    simp only [decide_eq_true_eq]
    intro heq
    exact h (List.mem_map.mpr ⟨p, hp, heq⟩)
  unfold mapGet
  rw [hf]
  rfl

theorem mapGet_of_mem_val (m : Cache) (k : Str) (v : CacheEntry)
    (hmem : k ∈ m.map Prod.fst) (hval : ∀ p ∈ m, p.2 = v) :
    mapGet m k = some v := by
  unfold mapGet
  cases hf : m.find? (fun p => decide (p.1 = k)) with
  | some p =>
    simp only [Option.map_some']
    rw [hval p (List.mem_of_find?_eq_some hf)]
  | none =>
    exfalso
    obtain ⟨p, hp, hpk⟩ := List.mem_map.mp hmem
    have := List.find?_eq_none.mp hf p hp
    simp [hpk] at this

/-- Claim C4: a lookup misses when the entry is absent, past expiry, or a
manifest (`.mpd`) reference — the manifest case regardless of expiry — and
in the latter two cases the entry is deleted during the read; a direct-URL
entry within its TTL is a hit and the map is untouched. -/
theorem claim_C4 : ∀ (c : Cache) (k : Str) (now : Nat),
    (mapGet c k = none → getCached c k now = (none, c)) ∧
    (∀ e, mapGet c k = some e → e.expiresAt < now →
      getCached c k now = (none, mapDelete c k) ∧ mapGet (mapDelete c k) k = none) ∧
    (∀ e, mapGet c k = some e → mpdSuffix.isSuffixOf e.url = true →
      getCached c k now = (none, mapDelete c k) ∧ mapGet (mapDelete c k) k = none) ∧
    (∀ e, mapGet c k = some e → now ≤ e.expiresAt → mpdSuffix.isSuffixOf e.url = false →
      getCached c k now = (some e.url, c)) := by
  intro c k now
  refine ⟨?_, ?_, ?_, ?_⟩
  · intro h
    simp [getCached, h]
  · intro e he hexp
    exact ⟨by simp [getCached, he, hexp], mapGet_delete c k⟩
  · intro e he hsuf
    refine ⟨?_, mapGet_delete c k⟩
    by_cases hexp : e.expiresAt < now
    · simp [getCached, he, hexp]
    · simp [getCached, he, hexp, hsuf]
  · intro e he h1 h2
    simp [getCached, he, Nat.not_lt.mpr h1, h2]

/-- A canonical direct-URL cache entry stored at time 0. -/
def exKey : Str := "dQw4w9WgXcQ".toList

def exEntry : CacheEntry := { url := "https://googlevideo.com/x".toList, expiresAt := CACHE_TTL_MS }

def exEntryMpd : CacheEntry :=
  { url := "file:///cache/trailer_dQw4w9WgXcQ.mpd".toList, expiresAt := CACHE_TTL_MS }

/-- Claim C4 witness: the spec scenario — a direct-URL entry with TTL 5h is
a hit at T+4h59m and an evicting miss at T+5h01m, and a fresh manifest
entry is an evicting miss immediately. -/
theorem claim_C4_witness :
    getCached [(exKey, exEntry)] exKey 17940000 = (some exEntry.url, [(exKey, exEntry)]) ∧
    getCached [(exKey, exEntry)] exKey 18060000 = (none, mapDelete [(exKey, exEntry)] exKey) ∧
    getCached [(exKey, exEntryMpd)] exKey 1000 = (none, mapDelete [(exKey, exEntryMpd)] exKey) :=
  ⟨(claim_C4 [(exKey, exEntry)] exKey 17940000).2.2.2 exEntry (by decide) (by decide) (by decide),
    ((claim_C4 [(exKey, exEntry)] exKey 18060000).2.1 exEntry (by decide) (by decide)).1,
    ((claim_C4 [(exKey, exEntryMpd)] exKey 1000).2.2.1 exEntryMpd (by decide) (by decide)).1⟩

theorem mapSet_fresh (m : Cache) (k : Str) (v : CacheEntry)
    (h : ∀ p ∈ m, p.1 ≠ k) : mapSet m k v = m ++ [(k, v)] := by
  unfold mapSet
  rw [if_neg]
  intro hc
  rcases List.any_eq_true.mp hc with ⟨p, hp, hdec⟩
  exact h p hp (of_decide_eq_true hdec)

theorem mapDelete_headP (p : Str × CacheEntry) (rest : Cache)
    (h : ∀ q ∈ rest, q.1 ≠ p.1) : mapDelete (p :: rest) p.1 = rest := by
  unfold mapDelete
  have h1 : (!decide (p.1 = p.1)) = false := by simp
  rw [List.filter_cons, h1]
  simp only [Bool.false_eq_true, if_false]
  exact List.filter_eq_self.mpr (fun q hq => by simp [h q hq])

theorem setCache_fresh_small (c : Cache) (k url : Str) (now : Nat)
    (hfresh : ∀ p ∈ c, p.1 ≠ k) (hsmall : c.length + 1 ≤ 100) :
    setCache c k url now = c ++ [(k, ⟨url, now + CACHE_TTL_MS⟩)] := by
  simp only [setCache]
  rw [mapSet_fresh c k ⟨url, now + CACHE_TTL_MS⟩ hfresh]
  rw [if_neg (by simp only [List.length_append, List.length_cons, List.length_nil]; omega)]

theorem setCache_fresh_evict (p : Str × CacheEntry) (c' : Cache) (k url : Str) (now : Nat)
    (hfresh : ∀ q ∈ p :: c', q.1 ≠ k)
    (hnodup : ((p :: c').map Prod.fst).Nodup)
    (hlen : (p :: c').length = 100) :
    setCache (p :: c') k url now = c' ++ [(k, ⟨url, now + CACHE_TTL_MS⟩)] := by
  simp only [setCache]
  rw [mapSet_fresh _ _ _ hfresh]
  rw [if_pos (by simp only [List.length_append, List.length_cons, List.length_nil, hlen]; omega)]
  rw [List.cons_append]
  simp only [List.head?_cons]
  apply mapDelete_headP
  intro q hq
  rcases List.mem_append.mp hq with hq' | hq'
  · intro heq
    have hnin : p.1 ∉ c'.map Prod.fst := by
      simp only [List.map_cons, List.nodup_cons] at hnodup
      exact hnodup.1
    have hq1 : q.1 ∈ c'.map Prod.fst := List.mem_map.mpr ⟨q, hq', rfl⟩
    rw [heq] at hq1
    exact hnin hq1
  · rcases List.mem_singleton.mp hq' with rfl
    exact fun heq => hfresh p (List.mem_cons_self _ _) heq.symm

theorem insertAll_spec (url : Str) (now : Nat) :
    ∀ (ks : List Str) (c : Cache),
      ((c.map Prod.fst) ++ ks).Nodup →
      c.length + ks.length ≤ 100 →
      (∀ p ∈ c, p.2 = ⟨url, now + CACHE_TTL_MS⟩) →
      (insertAll url now c ks).map Prod.fst = c.map Prod.fst ++ ks ∧
      (insertAll url now c ks).length = c.length + ks.length ∧
      (∀ p ∈ insertAll url now c ks, p.2 = ⟨url, now + CACHE_TTL_MS⟩) := by
  intro ks
  induction ks with
  | nil =>
    intro c h1 h2 h3
    have hid : insertAll url now c ([] : List Str) = c := rfl
    refine ⟨?_, ?_, ?_⟩
    · rw [hid, List.append_nil]
    · rw [hid, List.length_nil, Nat.add_zero]
    · rw [hid]
      exact h3
  | cons k rest ih =>
    intro c h1 h2 h3
    have hdisj := List.nodup_append.mp h1
    have hfresh : ∀ p ∈ c, p.1 ≠ k := by
      intro p hp heq
      have hmem : p.1 ∈ c.map Prod.fst := List.mem_map.mpr ⟨p, hp, rfl⟩
      exact hdisj.2.2 hmem (by rw [heq]; exact List.mem_cons_self _ _)
    have hsmall : c.length + 1 ≤ 100 := by
      simp only [List.length_cons] at h2
      omega
    have hstep := setCache_fresh_small c k url now hfresh hsmall
    have heq1 : insertAll url now c (k :: rest) =
        insertAll url now (c ++ [(k, ⟨url, now + CACHE_TTL_MS⟩)]) rest := by
      simp only [insertAll, List.foldl_cons, hstep]
    have h1' : ((c ++ [(k, (⟨url, now + CACHE_TTL_MS⟩ : CacheEntry))]).map Prod.fst ++ rest).Nodup := by
      simpa [List.append_assoc] using h1
    have h2' : (c ++ [(k, (⟨url, now + CACHE_TTL_MS⟩ : CacheEntry))]).length + rest.length ≤ 100 := by
      simp only [List.length_append, List.length_cons, List.length_nil]
      simp only [List.length_cons] at h2
      omega
    have h3' : ∀ p ∈ c ++ [(k, (⟨url, now + CACHE_TTL_MS⟩ : CacheEntry))],
        p.2 = ⟨url, now + CACHE_TTL_MS⟩ := by
      intro p hp
      rcases List.mem_append.mp hp with hp' | hp'
      · exact h3 p hp'
      · rcases List.mem_singleton.mp hp' with rfl
        rfl
    obtain ⟨ha, hb, hc⟩ := ih (c ++ [(k, ⟨url, now + CACHE_TTL_MS⟩)]) h1' h2' h3'
    refine ⟨?_, ?_, ?_⟩
    · rw [heq1, ha]
      simp [List.append_assoc]
    · rw [heq1, hb]
      simp only [List.length_append, List.length_cons, List.length_nil]
      omega
    · rw [heq1]
      exact hc

/-- Claim C8: starting from an empty cache, inserting 101 distinct keys
leaves exactly the 100 most-recently-inserted keys present (each stored
with expiry `now + TTL`) and the first-inserted key absent — each put past
capacity 100 evicts exactly the oldest-inserted entry. -/
theorem claim_C8 : ∀ (ks : List Str) (url : Str) (now : Nat),
    ks.Nodup → ks.length = 101 →
    (insertAll url now [] ks).map Prod.fst = ks.drop 1 ∧
    (∀ k ∈ ks.drop 1, mapGet (insertAll url now [] ks) k =
      some ⟨url, now + CACHE_TTL_MS⟩) ∧
    (∀ k₀, ks.head? = some k₀ → mapGet (insertAll url now [] ks) k₀ = none) := by
  intro ks url now hnd hlen
  have hne : ks ≠ [] := by
    intro h
    rw [h] at hlen
    simp at hlen
  obtain ⟨front, last, hks⟩ : ∃ front last, ks = front ++ [last] := by
    rcases List.eq_nil_or_concat ks with h | ⟨f, a, h⟩
    · exact absurd h hne
    · exact ⟨f, a, by rw [h, List.concat_eq_append]⟩
  subst hks
  · have hfl : front.length = 100 := by
      simp only [List.length_append, List.length_cons, List.length_nil] at hlen
      omega
    have hnds := List.nodup_append.mp hnd
    have hfronnd : front.Nodup := hnds.1
    have hlast_nin : last ∉ front := by
      intro hmem
      exact hnds.2.2 hmem (List.mem_singleton.mpr rfl)
    obtain ⟨hka, hkb, hkc⟩ := insertAll_spec url now front []
      (by simpa using hfronnd) (by simp [hfl])
      (by intro p hp; exact absurd hp (List.not_mem_nil p))
    simp only [List.map_nil, List.nil_append, List.length_nil, Nat.zero_add] at hka hkb
    obtain ⟨k₀, front', rfl⟩ : ∃ a l, front = a :: l := by
      cases hf : front with
      | nil => rw [hf] at hfl; simp at hfl
      | cons a l => exact ⟨a, l, rfl⟩
    have hfin : insertAll url now [] ((k₀ :: front') ++ [last]) =
        setCache (insertAll url now [] (k₀ :: front')) last url now := by
      simp only [insertAll, List.foldl_append, List.foldl_cons, List.foldl_nil]
    cases hcc : insertAll url now [] (k₀ :: front') with
    | nil =>
      rw [hcc] at hka
      simp at hka
    | cons p c' =>
      rw [hcc] at hka hkb hkc
      have hp1 : p.1 = k₀ ∧ c'.map Prod.fst = front' := by
        simp only [List.map_cons] at hka
        exact ⟨((List.cons.injEq _ _ _ _).mp hka).1, ((List.cons.injEq _ _ _ _).mp hka).2⟩
    -- the 101st insert is fresh and evicts the head
      have hfresh : ∀ q ∈ p :: c', q.1 ≠ last := by
        intro q hq heq
        have hq1 : q.1 ∈ (p :: c').map Prod.fst := List.mem_map.mpr ⟨q, hq, rfl⟩
        rw [hka, heq] at hq1
        exact hlast_nin hq1
      have hstep := setCache_fresh_evict p c' last url now hfresh
        (by rw [hka]; exact hfronnd) (by rw [hkb, hfl])
      have hfinal : insertAll url now [] ((k₀ :: front') ++ [last]) =
          c' ++ [(last, ⟨url, now + CACHE_TTL_MS⟩)] := by
        rw [hfin, hcc, hstep]
      have hdrop : ((k₀ :: front') ++ [last]).drop 1 = front' ++ [last] := by
        simp
      have hmapfin : (c' ++ [(last, (⟨url, now + CACHE_TTL_MS⟩ : CacheEntry))]).map Prod.fst =
          front' ++ [last] := by
        simp [List.map_append, hp1.2]
      refine ⟨?_, ?_, ?_⟩
      · rw [hfinal, hdrop, hmapfin]
      · intro k hk
        rw [hfinal]
        apply mapGet_of_mem_val
        · rw [hmapfin, ← hdrop]
          exact hk
        · intro q hq
          rcases List.mem_append.mp hq with hq' | hq'
          · exact hkc q (List.mem_cons_of_mem _ hq')
          · rcases List.mem_singleton.mp hq' with rfl
            rfl
      · intro kh hkh
        have hkh0 : kh = k₀ := by
          simp only [List.cons_append, List.head?_cons, Option.some.injEq] at hkh
          exact hkh.symm
        rw [hfinal, hkh0]
        apply mapGet_not_mem
        rw [hmapfin]
        intro hmem
        rcases List.mem_append.mp hmem with h' | h'
        · exact (List.nodup_cons.mp hfronnd).1 h'
        · rcases List.mem_singleton.mp h' with heq
          exact hlast_nin (by rw [heq]; exact List.mem_cons_self _ _)

/-- The 101 pairwise-distinct single-character keys of the eviction
scenario. -/
def wKeys : List Str := (List.range 101).map (fun i => [Char.ofNat (i + 40)])

/-- Claim C8 witness: the eviction scenario run on 101 concrete distinct
keys. -/
theorem claim_C8_witness :
    (insertAll "u".toList 0 [] wKeys).map Prod.fst = wKeys.drop 1 ∧
    (∀ k ∈ wKeys.drop 1, mapGet (insertAll "u".toList 0 [] wKeys) k =
      some ⟨"u".toList, 0 + CACHE_TTL_MS⟩) ∧
    (∀ k₀, wKeys.head? = some k₀ → mapGet (insertAll "u".toList 0 [] wKeys) k₀ = none) :=
  claim_C8 wKeys "u".toList 0 (by decide) (by decide)

-- ---------------------------------------------------------------------------
-- Claim C5: locator escaping in the synthesized manifest
-- ---------------------------------------------------------------------------

/-- Character-wise action of the source escaper: `&`, `"`, `<`, `>` become
entities, every other character — the apostrophe included — is kept. -/
def esc4 (c : Char) : Str :=
  if c = '&' then "&amp;".toList
  else if c = quoteChar then "&quot;".toList
  else if c = '<' then "&lt;".toList
  else if c = '>' then "&gt;".toList
  else [c]

def concatMapStr (f : Char → Str) : Str → Str
  | [] => []
  | c :: s => f c ++ concatMapStr f s

/-- Character-wise escaping for all five reserved markup characters, as the
spec words demand (for comparison with the source escaper). -/
def esc5 (c : Char) : Str :=
  if c = '&' then "&amp;".toList
  else if c = quoteChar then "&quot;".toList
  else if c = '<' then "&lt;".toList
  else if c = '>' then "&gt;".toList
  else if c = aposChar then "&apos;".toList
  else [c]

/-- Modelled from the spec: an escaper covering the five reserved markup
characters, which the spec asserts the manifest synthesizer uses. -/
def escapeXmlFive (s : Str) : Str := concatMapStr esc5 s

theorem replaceAllChar_append (c : Char) (rep a b : Str) :
    replaceAllChar c rep (a ++ b) = replaceAllChar c rep a ++ replaceAllChar c rep b := by
  induction a with
  | nil => rfl
  | cons d a ih =>
    simp only [List.cons_append, replaceAllChar, List.append_eq, ih, List.append_assoc]

theorem escHead (d : Char) :
    replaceAllChar '>' "&gt;".toList
      (replaceAllChar '<' "&lt;".toList
        (replaceAllChar quoteChar "&quot;".toList
          (if d = '&' then "&amp;".toList else [d]))) = esc4 d := by
  by_cases h1 : d = '&'
  · subst h1
    decide
  · rw [if_neg h1]
    by_cases h2 : d = quoteChar
    · subst h2
      have h1' : ¬(quoteChar = '&') := by decide
      simp only [esc4, if_neg h1', if_pos rfl]
      decide
    · by_cases h3 : d = '<'
      · subst h3
        decide
      · by_cases h4 : d = '>'
        · subst h4
          decide
        · simp [replaceAllChar, esc4, h1, h2, h3, h4]

theorem escapeXml_eq (s : Str) : escapeXml s = concatMapStr esc4 s := by
  induction s with
  | nil => rfl
  | cons d s ih =>
    show replaceAllChar '>' "&gt;".toList
        (replaceAllChar '<' "&lt;".toList
          (replaceAllChar quoteChar "&quot;".toList
            ((if d = '&' then "&amp;".toList else [d]) ++
              replaceAllChar '&' "&amp;".toList s))) = esc4 d ++ concatMapStr esc4 s
    rw [replaceAllChar_append, replaceAllChar_append, replaceAllChar_append, escHead d, ← ih]
    rfl

/-- A video descriptor whose locator contains an apostrophe. -/
def fmtVapos : InnertubeFormat :=
  { fmt999 with url := some ("http://x".toList ++ [aposChar] ++ "y".toList) }

/-- An audio descriptor for the counterexample manifest. -/
def fmtAex : InnertubeFormat :=
  { itag := 140
    url := some "http://a".toList
    mimeType := "audio/mp4".toList
    bitrate := 128000
    width := none
    height := none
    quality := "tiny".toList
    qualityLabel := none
    audioQuality := some "AUDIO_QUALITY_MEDIUM".toList
    audioSampleRate := some "44100".toList
    initRange := none
    indexRange := none }

/-- Claim C5 counterexample: the source escaper leaves the apostrophe — the
fifth reserved markup character — untouched, disagrees with the
five-character escaping the claim asserts, and a locator apostrophe lands
verbatim in the synthesized manifest text. -/
theorem claim_C5_counterexample :
    escapeXml ("http://x".toList ++ [aposChar] ++ "y".toList) =
      "http://x".toList ++ [aposChar] ++ "y".toList ∧
    escapeXml ("http://x".toList ++ [aposChar] ++ "y".toList) ≠
      escapeXmlFive ("http://x".toList ++ [aposChar] ++ "y".toList) ∧
    aposChar ∈ buildMpd fmtVapos fmtAex none := by
  refine ⟨by decide, by decide, ?_⟩
  have h : aposChar ∈ escapeXml (fmtVapos.url.getD []) := by decide
  simp only [buildMpd]
  exact List.mem_append.mpr (Or.inl (List.mem_append.mpr (Or.inl (List.mem_append.mpr
    (Or.inl (List.mem_append.mpr (Or.inr h)))))))

/-- Claim C5 (amended): every locator embedded in the synthesized manifest
is escaped character-wise for four of the five reserved markup characters
(`&`, `"`, `<`, `>`); the apostrophe is left unescaped.  The escaper is
exactly the character-wise map `esc4`, each of the four characters is
rewritten to its entity, the apostrophe is kept, and the manifest embeds
the two locators through this escaper. -/
theorem claim_C5 :
    (∀ s : Str, escapeXml s = concatMapStr esc4 s) ∧
    (∀ c : Char, (c = '&' ∨ c = quoteChar ∨ c = '<' ∨ c = '>') → esc4 c ≠ [c]) ∧
    esc4 aposChar = [aposChar] ∧
    (∀ (v a : InnertubeFormat) (dur : Option Nat), ∃ pre mid post,
      buildMpd v a dur =
        pre ++ escapeXml (v.url.getD []) ++ mid ++ escapeXml (a.url.getD []) ++ post) := by
  refine ⟨escapeXml_eq, ?_, by decide, ?_⟩
  · intro c hc
    rcases hc with rfl | rfl | rfl | rfl
    · decide
    · have h1 : ¬(quoteChar = '&') := by decide
      simp only [esc4, if_neg h1, if_pos rfl]
      decide
    · decide
    · decide
  · intro v a dur
    refine ⟨mpdHead v dur, mpdMid v a, mpdTail a, ?_⟩
    simp only [buildMpd, List.append_assoc]

/-- Claim C5 witness: the escaping facts applied at the ampersand and at a
concrete manifest. -/
theorem claim_C5_witness :
    esc4 '&' ≠ ['&'] ∧
    (∃ pre mid post,
      buildMpd fmtVapos fmtAex none =
        pre ++ escapeXml (fmtVapos.url.getD []) ++ mid ++
          escapeXml (fmtAex.url.getD []) ++ post) :=
  ⟨claim_C5.2.1 '&' (Or.inl rfl), claim_C5.2.2.2 fmtVapos fmtAex none⟩

-- ---------------------------------------------------------------------------
-- Claim C1: the negotiation chain
-- ---------------------------------------------------------------------------

theorem runChain_cons_advance (r : Option InnertubePlayerResponse)
    (rest : List (Option InnertubePlayerResponse)) (h : advancesB r = true) :
    runChain (r :: rest) = runChain rest := by
  cases r with
  | none => rfl
  | some pr =>
    simp only [runChain]
    by_cases hb : badStatus pr = true
    · rw [if_pos hb]
    · rw [if_neg hb]
      have h2 : parseMuxedFormats pr = [] ∧ parseAdaptiveFormats pr = [] := by
        simpa [advancesB, hb] using h
      rw [if_neg]
      intro hor
      rcases hor with h0 | h0
      · rw [h2.1] at h0
        simp at h0
      · rw [h2.2] at h0
        simp at h0

theorem runChain_cons_accept (pr : InnertubePlayerResponse)
    (rest : List (Option InnertubePlayerResponse)) (h : advancesB (some pr) = false) :
    runChain (some pr :: rest) = some (pr, parseMuxedFormats pr, parseAdaptiveFormats pr) := by
  have hb : badStatus pr = false := by
    cases hbs : badStatus pr
    · rfl
    · simp [advancesB, hbs] at h
  have hne : ¬(parseMuxedFormats pr = [] ∧ parseAdaptiveFormats pr = []) := by
    intro hc
    simp [advancesB, hb, hc.1, hc.2] at h
  have hpos : 0 < (parseMuxedFormats pr).length ∨ 0 < (parseAdaptiveFormats pr).length := by
    by_contra hcon
    push_neg at hcon
    apply hne
    constructor
    · exact List.eq_nil_of_length_eq_zero (by omega)
    · exact List.eq_nil_of_length_eq_zero (by omega)
  simp only [runChain]
  rw [if_neg (by simp [hb]), if_pos hpos]


/-- Claim C1: the fixed catalog holds exactly the four profiles in order;
the chain advances past a profile exactly when its request failed, its
response is unplayable/login-required, or classification yields zero
usable descriptors; the first profile whose response yields a usable
descriptor is accepted — the outcome does not depend on any later
profile — and when every profile advances, extraction returns null. -/
theorem claim_C1 :
    (clients.length = 4 ∧
      clients.map (fun c => c.name) =
        ["ANDROID".toList, "IOS".toList, "TVHTML5_EMBEDDED".toList, "WEB_EMBEDDED".toList]) ∧
    (∀ rs : List (Option InnertubePlayerResponse),
      runChain rs = none ↔ ∀ r ∈ rs, advancesB r = true) ∧
    (∀ (rs : List (Option InnertubePlayerResponse))
        (x : InnertubePlayerResponse × List InnertubeFormat × List InnertubeFormat),
      runChain rs = some x →
      ∃ pre r post pr, rs = pre ++ r :: post ∧
        (∀ q ∈ pre, advancesB q = true) ∧
        r = some pr ∧ advancesB r = false ∧
        x = (pr, parseMuxedFormats pr, parseAdaptiveFormats pr) ∧
        (∀ rest, runChain (pre ++ r :: rest) = some x)) ∧
    (∀ (p : Str → Option URLParts) (input : Str) (platform : Option Platform)
        (rs : List (Option InnertubePlayerResponse)) (cd : Option Str) (wk : Bool),
      runChain rs = none → extract p input platform rs cd wk = none) := by
  refine ⟨⟨rfl, rfl⟩, ?_, ?_, ?_⟩
  · intro rs
    induction rs with
    | nil => simp [runChain]
    | cons r rest ih =>
      constructor
      · intro h q hq
        cases ha : advancesB r with
        | true =>
          rcases List.mem_cons.mp hq with rfl | hq'
          · exact ha
          · rw [runChain_cons_advance r rest ha] at h
            exact ih.mp h q hq'
        | false =>
          exfalso
          cases r with
          | none => simp [advancesB] at ha
          | some pr =>
            rw [runChain_cons_accept pr rest ha] at h
            cases h
      · intro h
        have ha : advancesB r = true := h r (List.mem_cons_self _ _)
        rw [runChain_cons_advance r rest ha]
        exact ih.mpr (fun q hq => h q (List.mem_cons_of_mem _ hq))
  · intro rs
    induction rs with
    | nil =>
      intro x h
      cases h
    | cons r rest ih =>
      intro x h
      cases ha : advancesB r with
      | true =>
        rw [runChain_cons_advance r rest ha] at h
        obtain ⟨pre, r', post, pr, hdec, hpre, hr, hacc, hx, hind⟩ := ih x h
        refine ⟨r :: pre, r', post, pr, by rw [List.cons_append, hdec], ?_, hr, hacc, hx, ?_⟩
        · intro q hq
          rcases List.mem_cons.mp hq with rfl | hq'
          · exact ha
          · exact hpre q hq'
        · intro rest'
          rw [List.cons_append, runChain_cons_advance r _ ha]
          exact hind rest'
      | false =>
        cases r with
        | none => simp [advancesB] at ha
        | some pr =>
          rw [runChain_cons_accept pr rest ha] at h
          have hx : x = (pr, parseMuxedFormats pr, parseAdaptiveFormats pr) :=
            ((Option.some.injEq _ _).mp h).symm
          refine ⟨[], some pr, rest, pr, rfl, ?_, rfl, ha, hx, ?_⟩
          · intro q hq
            cases hq
          · intro rest'
            rw [List.nil_append, runChain_cons_accept pr rest' ha, hx]
  · intro p input platform rs cd wk hchain
    simp only [extract]
    cases hv : extractVideoId p input with
    | none => rfl
    | some vid =>
      rw [hchain]

/-- The chain-scenario responses: no usable descriptors, then UNPLAYABLE,
then two muxed descriptors, then a fourth profile that is never reached. -/
def respNoFormats : InnertubePlayerResponse :=
  { streamingData := some { formats := some [], adaptiveFormats := some [] }
    videoDetails := none
    playabilityStatus := some { status := "OK".toList, reason := none } }

def respUnplayable : InnertubePlayerResponse :=
  { streamingData := none
    videoDetails := none
    playabilityStatus := some { status := "UNPLAYABLE".toList, reason := none } }

def respMuxed : InnertubePlayerResponse :=
  { streamingData := some
      { formats := some [{ fmt999 with itag := 22 }, { fmt999 with itag := 18 }]
        adaptiveFormats := some [] }
    videoDetails := some { videoId := exKey, title := "t".toList, lengthSeconds := "212".toList }
    playabilityStatus := some { status := "OK".toList, reason := none } }

def chainScenario : List (Option InnertubePlayerResponse) :=
  [some respNoFormats, some respUnplayable, some respMuxed, some respUnplayable]

/-- Claim C1 witness: on the chain scenario the third profile is accepted,
the first two advance, and the fourth is irrelevant to the outcome. -/
theorem claim_C1_witness :
    ∃ pre r post pr, chainScenario = pre ++ r :: post ∧
      (∀ q ∈ pre, advancesB q = true) ∧
      r = some pr ∧ advancesB r = false ∧
      (respMuxed, parseMuxedFormats respMuxed, parseAdaptiveFormats respMuxed) =
        (pr, parseMuxedFormats pr, parseAdaptiveFormats pr) ∧
      (∀ rest, runChain (pre ++ r :: rest) =
        some (respMuxed, parseMuxedFormats respMuxed, parseAdaptiveFormats respMuxed)) :=
  claim_C1.2.2.1 chainScenario
    (respMuxed, parseMuxedFormats respMuxed, parseAdaptiveFormats respMuxed) (by decide)

-- ---------------------------------------------------------------------------
-- Claim C6: Android DASH path and manifest-write fallback
-- ---------------------------------------------------------------------------

theorem pickBestAdaptiveVideo_pos (fmts : List InnertubeFormat) (v : InnertubeFormat)
    (h : pickBestAdaptiveVideo fmts = some v) : 0 < fmts.length := by
  cases fmts with
  | nil => simp [pickBestAdaptiveVideo, videoOnlyOf] at h
  | cons f l => simp

/-- Claim C6: on Android, when both adaptive selections succeed and the
manifest write succeeds, the best stream is the manifest file reference
with combined bitrate video + audio and both presence flags true; when the
write fails (or no cache directory exists) the synthesizer returns null
and the orchestrator falls back to the muxed selection. -/
theorem claim_C6 : ∀ (muxed adaptive : List InnertubeFormat) (v a : InnertubeFormat)
    (vid dir : Str) (cd : Option Str) (wk : Bool),
    pickBestAdaptiveVideo adaptive = some v →
    pickBestAdaptiveAudio adaptive = some a →
    (chooseBestStream (some Platform.android) muxed adaptive vid (some dir) true =
      some { url := dir ++ ("trailer_".toList ++ (vid ++ ".mpd".toList))
             quality := formatQualityLabel v
             mimeType := "application/dash+xml".toList
             itag := v.itag
             hasAudio := true
             hasVideo := true
             bitrate := v.bitrate + a.bitrate }) ∧
    (chooseBestStream (some Platform.android) muxed adaptive vid cd false =
      pickBestMuxedStream muxed adaptive) ∧
    (chooseBestStream (some Platform.android) muxed adaptive vid none wk =
      pickBestMuxedStream muxed adaptive) ∧
    writeDashManifestToFile (some dir) false vid = none ∧
    writeDashManifestToFile none wk vid = none := by
  intro muxed adaptive v a vid dir cd wk hv ha
  have hlen : 0 < adaptive.length := pickBestAdaptiveVideo_pos adaptive v hv
  have hcond : (some Platform.android = some Platform.android ∧ 0 < adaptive.length) :=
    ⟨rfl, hlen⟩
  refine ⟨?_, ?_, ?_, rfl, rfl⟩
  · simp [chooseBestStream, hv, ha, writeDashManifestToFile, hlen]
  · cases cd with
    | none => simp [chooseBestStream, hv, ha, writeDashManifestToFile, hlen]
    | some d => simp [chooseBestStream, hv, ha, writeDashManifestToFile, hlen]
  · simp [chooseBestStream, hv, ha, writeDashManifestToFile, hlen]

/-- Claim C6 witness: a concrete adaptive pair, with the manifest path on
success and the muxed fallback on write failure. -/
theorem claim_C6_witness :
    (chooseBestStream (some Platform.android) [] [fmt999, fmtAex] exKey (some "/cache/".toList) true =
      some { url := "/cache/".toList ++ ("trailer_".toList ++ (exKey ++ ".mpd".toList))
             quality := formatQualityLabel fmt999
             mimeType := "application/dash+xml".toList
             itag := fmt999.itag
             hasAudio := true
             hasVideo := true
             bitrate := fmt999.bitrate + fmtAex.bitrate }) ∧
    (chooseBestStream (some Platform.android) [] [fmt999, fmtAex] exKey none false =
      pickBestMuxedStream [] [fmt999, fmtAex]) ∧
    (chooseBestStream (some Platform.android) [] [fmt999, fmtAex] exKey none true =
      pickBestMuxedStream [] [fmt999, fmtAex]) ∧
    writeDashManifestToFile (some "/cache/".toList) false exKey = none ∧
    writeDashManifestToFile none true exKey = none := by
  obtain ⟨h1, h2, h3, h4, h5⟩ :=
    claim_C6 [] [fmt999, fmtAex] fmt999 fmtAex exKey "/cache/".toList none true
      (by decide) (by decide)
  exact ⟨h1, h2, h3, h4, h5⟩

-- ---------------------------------------------------------------------------
-- Claim C7: no muxed descriptors and no adaptive-video candidates
-- ---------------------------------------------------------------------------

/-- Claim C7: when the accepted response carries no muxed descriptors and
no adaptive-video candidates (for example only audio-only descriptors),
the best-stream choice is null and `getBestStreamUrl` returns null — the
total model has no exception to raise. -/
theorem claim_C7 : ∀ (p : Str → Option URLParts) (input : Str) (platform : Option Platform)
    (rs : List (Option InnertubePlayerResponse)) (cd : Option Str) (wk : Bool)
    (pr : InnertubePlayerResponse) (adaptive : List InnertubeFormat),
    runChain rs = some (pr, [], adaptive) →
    (∀ f ∈ adaptive, ¬(strTruthy f.qualityLabel = true ∧
      videoSlash.isPrefixOf f.mimeType = true)) →
    getBestStreamUrl p input platform rs cd wk = none := by
  intro p input platform rs cd wk pr adaptive hchain hno
  have hvoe : videoOnlyOf adaptive = [] := by
    apply List.filter_eq_nil_iff.mpr
    intro f hf hc
    simp only [Bool.and_eq_true] at hc
    obtain ⟨⟨⟨_, hc3⟩, _⟩, hc4⟩ := hc
    exact hno f hf ⟨hc3, hc4⟩
  have hvae : videoAdaptiveOf adaptive = [] := by
    apply List.filter_eq_nil_iff.mpr
    intro f hf hc
    simp only [Bool.and_eq_true] at hc
    obtain ⟨⟨_, hc3⟩, hc4⟩ := hc
    exact hno f hf ⟨hc3, hc4⟩
  have hpv : pickBestAdaptiveVideo adaptive = none := by
    simp [pickBestAdaptiveVideo, hvoe]
  have hmux : pickBestMuxedStream [] adaptive = none := by
    simp only [pickBestMuxedStream]
    rw [if_neg (by simp)]
    by_cases hl : 0 < adaptive.length
    · rw [if_pos hl]
      simp only [hvae]
      rw [if_neg (by simp)]
    · rw [if_neg hl]
  have hcbs : ∀ vid, chooseBestStream platform [] adaptive vid cd wk = none := by
    intro vid
    simp only [chooseBestStream]
    by_cases hc : platform = some Platform.android ∧ 0 < adaptive.length
    · rw [if_pos hc, hpv]
      cases haud : pickBestAdaptiveAudio adaptive <;> simp [hmux]
    · rw [if_neg hc]
      simp [hmux]
  simp only [getBestStreamUrl, extract]
  cases hv : extractVideoId p input with
  | none => rfl
  | some vid =>
    rw [hchain]
    simp [hcbs vid]

/-- An accepted response holding only an audio-only adaptive descriptor. -/
def respAudioOnly : InnertubePlayerResponse :=
  { streamingData := some { formats := some [], adaptiveFormats := some [fmtAex] }
    videoDetails := none
    playabilityStatus := some { status := "OK".toList, reason := none } }

def noURL : Str → Option URLParts := fun _ => none

/-- Claim C7 witness: the audio-only response is accepted by the chain yet
yields a null best-stream URL. -/
theorem claim_C7_witness :
    getBestStreamUrl noURL exKey (some Platform.ios) [some respAudioOnly] none false = none :=
  claim_C7 noURL exKey (some Platform.ios) [some respAudioOnly] none false
    respAudioOnly [fmtAex] (by decide) (by decide)

-- ---------------------------------------------------------------------------
-- Claim C9: the identifier normalizer
-- ---------------------------------------------------------------------------

theorem dropWhile_eq_self_of (p : Char → Bool) (s : Str)
    (h : ∀ c ∈ s, p c = false) : s.dropWhile p = s := by
  cases s with
  | nil => rfl
  | cons c cs =>
    rw [List.dropWhile_cons, if_neg]
    rw [h c (List.mem_cons_self _ _)]
    exact Bool.false_ne_true

theorem canonChar_not_ws (c : Char) (h : isCanonChar c = true) : isJsWS c = false := by
  cases hw : isJsWS c
  · rfl
  · exfalso
    have hmem : c ∈ wsChars := of_decide_eq_true hw
    simp only [wsChars, List.mem_cons, List.not_mem_nil, or_false] at hmem
    rcases hmem with rfl | rfl | rfl | rfl | rfl | rfl <;> exact absurd h (by decide)

theorem jsTrim_canonical (s : Str) (h : s.all isCanonChar = true) : jsTrim s = s := by
  have hall : ∀ c ∈ s, isJsWS c = false := by
    intro c hc
    exact canonChar_not_ws c (List.all_eq_true.mp h c hc)
  unfold jsTrim
  rw [dropWhile_eq_self_of _ _ hall]
  rw [dropWhile_eq_self_of _ _ (by
    intro c hc
    exact hall c (List.mem_reverse.mp hc))]
  exact List.reverse_reverse s

theorem segTryAt_canonical (s id : Str) (h : segTryAt s = some id) :
    isCanonical id = true := by
  simp only [segTryAt] at h
  cases hpre : (if "/embed/".toList.isPrefixOf s then some (s.drop 7)
      else if "/shorts/".toList.isPrefixOf s then some (s.drop 8)
      else if "/v/".toList.isPrefixOf s then some (s.drop 3)
      else none) with
  | none =>
    simp only [hpre] at h
    cases h
  | some r =>
    simp only [hpre] at h
    by_cases hc : (decide ((r.take 11).length = 11) && (r.take 11).all isCanonChar) = true
    · rw [if_pos hc] at h
      injection h with h'
      rw [← h']
      exact hc
    · rw [if_neg hc] at h
      cases h

theorem scanPathForId_canonical : ∀ s id : Str, scanPathForId s = some id →
    isCanonical id = true := by
  intro s
  induction s with
  | nil =>
    intro id h
    cases h
  | cons c rest ih =>
    intro id h
    rw [scanPathForId] at h
    cases hseg : segTryAt (c :: rest) with
    | some j =>
      simp only [hseg] at h
      injection h with h'
      rw [← h']
      exact segTryAt_canonical _ _ hseg
    | none =>
      simp only [hseg] at h
      exact ih id h

theorem rawTryAt_canonical (s id : Str) (h : rawTryAt s = some id) :
    isCanonical id = true := by
  cases s with
  | nil => cases h
  | cons c rest =>
    simp only [rawTryAt] at h
    by_cases h1 : c = '?' ∨ c = '&'
    · rw [if_pos h1] at h
      by_cases h2 : "v=".toList.isPrefixOf rest = true
      · rw [if_pos h2] at h
        by_cases hc : (decide (((rest.drop 2).take 11).length = 11) &&
            ((rest.drop 2).take 11).all isCanonChar) = true
        · rw [if_pos hc] at h
          injection h with h'
          rw [← h']
          exact hc
        · rw [if_neg hc] at h
          cases h
      · rw [if_neg h2] at h
        cases h
    · rw [if_neg h1] at h
      cases h

theorem scanRawForV_canonical : ∀ s id : Str, scanRawForV s = some id →
    isCanonical id = true := by
  intro s
  induction s with
  | nil =>
    intro id h
    cases h
  | cons c rest ih =>
    intro id h
    rw [scanRawForV] at h
    cases hr : rawTryAt (c :: rest) with
    | some j =>
      simp only [hr] at h
      injection h with h'
      rw [← h']
      exact rawTryAt_canonical _ _ hr
    | none =>
      simp only [hr] at h
      exact ih id h

theorem tryShort_canonical (url : URLParts) (id : Str) (h : tryShort url = some id) :
    isCanonical id = true := by
  simp only [tryShort] at h
  by_cases hh : url.hostname = "youtu.be".toList
  · rw [if_pos hh] at h
    by_cases hc : (!((jsSplit '/' (url.pathname.drop 1)).headD []).isEmpty &&
        isCanonical ((jsSplit '/' (url.pathname.drop 1)).headD [])) = true
    · rw [if_pos hc] at h
      injection h with h'
      rw [← h']
      simp only [Bool.and_eq_true] at hc
      exact hc.2
    · rw [if_neg hc] at h
      cases h
  · rw [if_neg hh] at h
    cases h

theorem tryVParam_canonical (url : URLParts) (v : Str) (h : tryVParam url = some v) :
    isCanonical v = true := by
  simp only [tryVParam] at h
  cases hsp : spGet url.searchParams "v".toList with
  | none =>
    simp only [hsp] at h
    cases h
  | some w =>
    simp only [hsp] at h
    by_cases hc : (!w.isEmpty && isCanonical w) = true
    · rw [if_pos hc] at h
      injection h with h'
      rw [← h']
      simp only [Bool.and_eq_true] at hc
      exact hc.2
    · rw [if_neg hc] at h
      cases h

theorem extractVideoId_canonical (p : Str → Option URLParts) (s id : Str)
    (h : extractVideoId p s = some id) : isCanonical id = true := by
  simp only [extractVideoId] at h
  by_cases hse : s.isEmpty = true
  · rw [if_pos hse] at h
    cases h
  · rw [if_neg hse] at h
    by_cases hc : isCanonical (jsTrim s) = true
    · rw [if_pos hc] at h
      injection h with h'
      rw [← h']
      exact hc
    · rw [if_neg hc] at h
      cases hp : p s with
      | none =>
        simp only [hp] at h
        exact scanRawForV_canonical s id h
      | some url =>
        simp only [hp, fromURL] at h
        cases hts : tryShort url with
        | some j =>
          simp only [hts] at h
          injection h with h'
          rw [← h']
          exact tryShort_canonical url j hts
        | none =>
          simp only [hts] at h
          cases htv : tryVParam url with
          | some w =>
            simp only [htv] at h
            injection h with h'
            rw [← h']
            exact tryVParam_canonical url w htv
          | none =>
            simp only [htv] at h
            exact scanPathForId_canonical _ _ h

/-- Claim C9: the normalizer is pure and idempotent — an input that is
canonical after trimming is returned (trimmed) unchanged, and every output
normalizes to itself under any parser; each documented URL shape
(short-link first path segment, `v` query parameter, embed/shorts/v path
segment, and the raw `v=` regex when URL parsing fails) returns the
embedded 11-character id; every other string returns null. -/
theorem claim_C9 :
    (∀ (p : Str → Option URLParts) (s : Str),
      isCanonical (jsTrim s) = true → extractVideoId p s = some (jsTrim s)) ∧
    (∀ (p q : Str → Option URLParts) (s id : Str),
      extractVideoId p s = some id → extractVideoId q id = some id) ∧
    (∀ (p : Str → Option URLParts) (s : Str) (url : URLParts) (id : Str),
      isCanonical (jsTrim s) = false → s.isEmpty = false → p s = some url →
      url.hostname = "youtu.be".toList →
      (jsSplit '/' (url.pathname.drop 1)).headD [] = id →
      id.isEmpty = false → isCanonical id = true →
      extractVideoId p s = some id) ∧
    (∀ (p : Str → Option URLParts) (s : Str) (url : URLParts) (v : Str),
      isCanonical (jsTrim s) = false → s.isEmpty = false → p s = some url →
      tryShort url = none →
      spGet url.searchParams "v".toList = some v →
      v.isEmpty = false → isCanonical v = true →
      extractVideoId p s = some v) ∧
    (∀ (p : Str → Option URLParts) (s : Str) (url : URLParts) (id : Str),
      isCanonical (jsTrim s) = false → s.isEmpty = false → p s = some url →
      tryShort url = none → tryVParam url = none →
      scanPathForId url.pathname = some id →
      extractVideoId p s = some id) ∧
    (∀ (p : Str → Option URLParts) (s id : Str),
      isCanonical (jsTrim s) = false → s.isEmpty = false → p s = none →
      scanRawForV s = some id →
      extractVideoId p s = some id) ∧
    (∀ (p : Str → Option URLParts) (s : Str) (url : URLParts),
      isCanonical (jsTrim s) = false → p s = some url →
      tryShort url = none → tryVParam url = none → scanPathForId url.pathname = none →
      extractVideoId p s = none) ∧
    (∀ (p : Str → Option URLParts) (s : Str),
      isCanonical (jsTrim s) = false → p s = none → scanRawForV s = none →
      extractVideoId p s = none) := by
  refine ⟨?_, ?_, ?_, ?_, ?_, ?_, ?_, ?_⟩
  · intro p s hc
    have hne : s.isEmpty = false := by
      cases s with
      | nil => exact absurd hc (by decide)
      | cons c cs => rfl
    simp only [extractVideoId]
    rw [if_neg (by simp [hne]), if_pos hc]
  · intro p q s id h
    have hcan : isCanonical id = true := extractVideoId_canonical p s id h
    have hne : id.isEmpty = false := by
      cases id with
      | nil => exact absurd hcan (by decide)
      | cons c cs => rfl
    have hall : id.all isCanonChar = true := by
      simp only [isCanonical, Bool.and_eq_true] at hcan
      exact hcan.2
    have htrim : jsTrim id = id := jsTrim_canonical id hall
    simp only [extractVideoId, htrim]
    rw [if_neg (by simp [hne]), if_pos hcan]
  · intro p s url id h1 h2 h3 h4 h5 h6 h7
    simp only [extractVideoId]
    rw [if_neg (by simp [h2]), if_neg (by simp [h1])]
    simp only [h3]
    have hshort : tryShort url = some id := by
      simp only [tryShort, if_pos h4]
      rw [h5]
      rw [if_pos (by simp [h6, h7])]
    simp only [fromURL, hshort]
  · intro p s url v h1 h2 h3 h4 h5 h6 h7
    simp only [extractVideoId]
    rw [if_neg (by simp [h2]), if_neg (by simp [h1])]
    simp only [h3]
    have hv : tryVParam url = some v := by
      simp only [tryVParam, h5]
      rw [if_pos (by simp [h6, h7])]
    simp only [fromURL, h4, hv]
  · intro p s url id h1 h2 h3 h4 h5 h6
    simp only [extractVideoId]
    rw [if_neg (by simp [h2]), if_neg (by simp [h1])]
    simp only [h3, fromURL, h4, h5]
    exact h6
  · intro p s id h1 h2 h3 h4
    simp only [extractVideoId]
    rw [if_neg (by simp [h2]), if_neg (by simp [h1])]
    simp only [h3]
    exact h4
  · intro p s url h1 h2 h3 h4 h5
    by_cases hse : s.isEmpty = true
    · simp [extractVideoId, hse]
    · simp only [extractVideoId]
      rw [if_neg hse, if_neg (by simp [h1])]
      simp only [h2, fromURL, h3, h4]
      exact h5
  · intro p s h1 h2 h3
    by_cases hse : s.isEmpty = true
    · simp [extractVideoId, hse]
    · simp only [extractVideoId]
      rw [if_neg hse, if_neg (by simp [h1])]
      simp only [h2]
      exact h3

/-- The abstract parse of `https://youtu.be/dQw4w9WgXcQ`. -/
def shortURL : URLParts :=
  { hostname := "youtu.be".toList
    pathname := "/dQw4w9WgXcQ".toList
    searchParams := [] }

def shortParse : Str → Option URLParts := fun _ => some shortURL

/-- Claim C9 witness: a padded canonical id is returned trimmed, a
short-link URL yields its embedded id, and normalizing that output again
returns it unchanged. -/
theorem claim_C9_witness :
    extractVideoId noURL " dQw4w9WgXcQ ".toList = some (jsTrim " dQw4w9WgXcQ ".toList) ∧
    extractVideoId shortParse "https://youtu.be/dQw4w9WgXcQ".toList = some exKey ∧
    extractVideoId noURL exKey = some exKey :=
  ⟨claim_C9.1 noURL " dQw4w9WgXcQ ".toList (by decide),
    claim_C9.2.2.1 shortParse "https://youtu.be/dQw4w9WgXcQ".toList shortURL exKey
      (by decide) (by decide) rfl rfl (by decide) (by decide) (by decide),
    claim_C9.2.1 shortParse noURL "https://youtu.be/dQw4w9WgXcQ".toList exKey
      (claim_C9.2.2.1 shortParse "https://youtu.be/dQw4w9WgXcQ".toList shortURL exKey
        (by decide) (by decide) rfl rfl (by decide) (by decide) (by decide))⟩
